import Mathlib

/-!
# rMVP data converter (`src/data_converter.cpp`): embedding and verification

The C++ functions of `data_converter.cpp` are embedded as Lean functions.

Conventions of the embedding.

* A C++ `std::string` is a `List Char`, each `Char` standing for one byte.
* A byte of a BED file is a `Nat` below 256.
* The genotype store (`BigMatrix`, accessed through `MatrixAccessor<T>`) is a
  grid of cells with a shape; `mat[col][row]` outside the shape is an
  out-of-bounds memory access and is reported as `Failure.undefined`.
* Sizes and counters (`long`, `size_t`, the `int` block counter) are taken
  within the range of their machine type, so they are unbounded `Nat`/`Int`
  here. The narrowing conversions between element types (`static_cast<T>`,
  storing a `T` in a `vector<char>`) do wrap and are written out with `%`.
* A `double` cell is either an integer-valued number or NaN; other doubles
  are outside the value type.
* The OpenMP loops are run in index order, one iteration after the other.
-/

namespace rMVP

/-! ## Failures -/

/-- Ways a call can end without returning. -/
inductive Failure
  /-- `Rcpp::stop`: no header line was found. -/
  | no_header
  /-- `Rcpp::exception("unknown type detected for big.matrix object!")`. -/
  | unknown_type
  /-- `std::out_of_range` raised by `std::string::compare`. -/
  | out_of_range
  /-- Undefined behaviour: out-of-bounds access, division by zero, read of unfilled memory. -/
  | undefined
  deriving DecidableEq, Repr

/-! ## Element types -/

/-- Element type `T` of a store: `char`, `short`, `int` or `double`
(`matrix_type()` 1, 2, 4, 8). -/
inductive Width
  | char
  | short
  | int
  | double
  deriving DecidableEq, Repr

/-- Value of type `T`: an integer (for `double`, an integer-valued double) or NaN
(for `double` only). -/
inductive Val
  | num (v : Int)
  | nan
  deriving DecidableEq, Repr

/-- Two's-complement wrap of an integer to `bits` bits (narrowing conversion). -/
def wrap (bits : Nat) (v : Int) : Int :=
  (v + 2 ^ (bits - 1)) % 2 ^ bits - 2 ^ (bits - 1)

/-- Conversion `static_cast<T>(v)` of an `int` value `v`. -/
def castInt : Width → Int → Val
  | .char, v => .num (wrap 8 v)
  | .short, v => .num (wrap 16 v)
  | .int, v => .num (wrap 32 v)
  | .double, v => .num v

/-- Modelled from the spec: the missing sentinel of each width, `static_cast<T>(NA_C)`
for the `NA_C` the dispatchers pass (`NA_CHAR`, `NA_SHORT`, `NA_INTEGER`, `NA_REAL`);
the constants come from the bigmemory and R headers, which are not part of the
repository: the least value of `char`, `short` and `int`, and a NaN for `double`. -/
def NA : Width → Val
  | .char => .num (-128)
  | .short => .num (-32768)
  | .int => .num (-2147483648)
  | .double => .nan

/-- Modelled from the spec: `isna(c)` of `bigmemory/isna.hpp`, which is not part of the
repository: equality with the width's sentinel for the integer types, `isnan` for
`double`. -/
def isna (w : Width) (c : Val) : Bool :=
  match w with
  | .double => c = .nan
  | _ => c = NA w

/-- The comparison `a < b` on `T`; every comparison with NaN is false. -/
def Val.lt : Val → Val → Bool
  | .num a, .num b => a < b
  | _, _ => false

/-- The comparison `a < b` on `int`. -/
def intLt (a b : Int) : Bool := a < b

/-! ## `std::map` -/

/-- A `std::map<K, V>`: its entries in iteration order. -/
abbrev StdMap (K V : Type) := List (K × V)

/-- Read access `m[k]` (`std::map::operator[]`): `lower_bound(k)` is the first entry
whose key is not less than `k`; if there is none, or `k` is less than its key, a
value-initialised entry is inserted there; the entry's value is returned together
with the map. -/
def StdMap.index {K V : Type} (lt : K → K → Bool) (dflt : V) :
    StdMap K V → K → V × StdMap K V
  | [], k => (dflt, [(k, dflt)])
  | (k', v') :: rest, k =>
    if lt k' k then
      ((StdMap.index lt dflt rest k).1, (k', v') :: (StdMap.index lt dflt rest k).2)
    else if lt k k' then (dflt, (k, dflt) :: (k', v') :: rest)
    else (v', (k', v') :: rest)

/-- Assignment `m[k] = v` (`std::map::operator[]` followed by a store through the
returned reference). -/
def StdMap.assign {K V : Type} (lt : K → K → Bool) :
    StdMap K V → K → V → StdMap K V
  | [], k, v => [(k, v)]
  | (k', v') :: rest, k, v =>
    if lt k' k then (k', v') :: StdMap.assign lt rest k v
    else if lt k k' then (k, v) :: (k', v') :: rest
    else (k', v) :: rest

/-! ## The genotype store -/

/-- The store behind `XPtr<BigMatrix>`: its shape, its type tag and its cells,
`cell col row` being `mat[col][row]`. -/
structure BigMatrix where
  nrow : Nat
  ncol : Nat
  matrix_type : Nat
  cell : Nat → Nat → Val

/-- Read of `mat[col][row]`. -/
def BigMatrix.get? (M : BigMatrix) (col row : Nat) : Except Failure Val :=
  if col < M.ncol ∧ row < M.nrow then .ok (M.cell col row) else .error .undefined

/-- Write `mat[col][row] = v`. -/
def BigMatrix.set? (M : BigMatrix) (col row : Nat) (v : Val) : Except Failure BigMatrix :=
  if col < M.ncol ∧ row < M.nrow then
    .ok { M with cell := fun c r => if c = col ∧ r = row then v else M.cell c r }
  else .error .undefined

/-! ## Loops -/

/-- The loop `for (x = x0; cond(x); x++) body`, run for at most `fuel` iterations. Every
use passes as `fuel` a bound that `cond` itself enforces. -/
def forLoop {σ : Type} (cond : Nat → Bool) (body : Nat → σ → Except Failure σ) :
    Nat → Nat → σ → Except Failure σ
  | 0, _, s => .ok s
  | fuel + 1, x, s =>
    if cond x then
      match body x s with
      | .ok s' => forLoop cond body fuel (x + 1) s'
      | .error e => .error e
    else .ok s

/-! ## BED files -/

/-- The check of the file name in `write_bfile<T>` and `read_bfile<T>`:
`bed_file.compare(bed_file.length() - 4, 4, ".bed")`, appending `".bed"` when the
comparison is not 0. The position `length() - 4` is unsigned: for a name shorter
than 4 characters it exceeds the length and `compare` throws. -/
def bed_ending (bed_file : List Char) : Except Failure (List Char) :=
  if bed_file.length < 4 then .error .out_of_range
  else if bed_file.drop (bed_file.length - 4) = ".bed".toList then .ok bed_file
  else .ok (bed_file ++ ".bed".toList)

/-- Number of bytes of a row: `ncol / 4`, plus one when `ncol % 4 != 0`. -/
def bytes_per_row (ncol : Nat) : Nat :=
  if ncol % 4 ≠ 0 then ncol / 4 + 1 else ncol / 4

/-- The three magic bytes written by `write_bfile<T>`. -/
def magic_bytes : List Nat := [0x6c, 0x1b, 0x01]

/-- The table `code` of `write_bfile<T>` after its four assignments. -/
def write_bfile_code (w : Width) : StdMap Val Nat :=
  StdMap.assign Val.lt
    (StdMap.assign Val.lt
      (StdMap.assign Val.lt
        (StdMap.assign Val.lt [] (castInt w 0) 3)
        (castInt w 1) 2)
      (castInt w 2) 0)
    (NA w) 1

/-- State of the encoder: the table `code`, the row buffer `geno`, the byte `p` being
packed and the bytes written to `fout` so far. -/
structure Encoder where
  code : StdMap Val Nat
  geno : List Nat
  p : Nat
  fout : List Nat

/-- Body of the loop over `x` in `write_bfile<T>`: one cell is packed into `p`. -/
def write_bfile_x (w : Width) (pMat : BigMatrix) (i j : Nat) (x : Nat) (s : Encoder) :
    Except Failure Encoder :=
  match pMat.get? (4 * j + x) i with
  | .error e => .error e
  | .ok c =>
    if isna w c then
      .ok { s with p := (s.p ||| (1 <<< (x * 2))) % 256 }
    else
      .ok { s with
            code := (StdMap.index Val.lt 0 s.code c).2
            p := (s.p ||| ((StdMap.index Val.lt 0 s.code c).1 <<< (x * 2))) % 256 }

/-- Body of the loop over `j` in `write_bfile<T>`: one byte of the row. -/
def write_bfile_j (w : Width) (pMat : BigMatrix) (i : Nat) (j : Nat) (s : Encoder) :
    Except Failure Encoder :=
  match forLoop (fun x => decide (x < 4 ∧ 4 * j + x < pMat.ncol))
      (write_bfile_x w pMat i j) 4 0 { s with p := 0 } with
  | .error e => .error e
  | .ok s' => .ok { s' with geno := s'.geno.set j s'.p }

/-- Body of the loop over `i` in `write_bfile<T>`: one row is packed and written. -/
def write_bfile_i (w : Width) (pMat : BigMatrix) (n : Nat) (i : Nat) (s : Encoder) :
    Except Failure Encoder :=
  match forLoop (fun j => decide (j < n)) (write_bfile_j w pMat i) n 0 s with
  | .error e => .error e
  | .ok s' => .ok { s' with fout := s'.fout ++ s'.geno }

/-- The part of `write_bfile<T>` after the file-name check: the bytes written to the
file. -/
def write_bfile_bytes (w : Width) (pMat : BigMatrix) : Except Failure (List Nat) :=
  let m := pMat.nrow
  let n := bytes_per_row pMat.ncol
  match forLoop (fun i => decide (i < m)) (write_bfile_i w pMat n) m 0
      { code := write_bfile_code w, geno := List.replicate n 0, p := 0,
        fout := magic_bytes } with
  | .error e => .error e
  | .ok s => .ok s.fout

/-- The template `write_bfile<T>`: the name of the file written and its bytes. -/
def write_bfile_T (w : Width) (pMat : BigMatrix) (bed_file : List Char) :
    Except Failure (List Char × List Nat) :=
  match bed_ending bed_file with
  | .error e => .error e
  | .ok name =>
    match write_bfile_bytes w pMat with
    | .error e => .error e
    | .ok bytes => .ok (name, bytes)

/-- The table `code` of `read_bfile<T>` after its four assignments. -/
def read_bfile_code (w : Width) : StdMap Int Val :=
  StdMap.assign intLt
    (StdMap.assign intLt
      (StdMap.assign intLt
        (StdMap.assign intLt [] 3 (castInt w 0))
        2 (castInt w 1))
      1 (NA w))
    0 (castInt w 2)

/-- State of the decoder: the unread rest of the file `fin`, the current `buffer`, the
table `code` and the store. -/
structure Decoder where
  fin : List Nat
  buffer : List Nat
  code : StdMap Int Val
  mat : BigMatrix

/-- Body of the loop over `x` in `read_bfile<T>`: one two-bit field of the byte `p`
is written to `mat[c + x][r]`. -/
def read_bfile_x (p c r : Nat) (x : Nat) (s : Decoder) : Except Failure Decoder :=
  match s.mat.set? (c + x) r
      (StdMap.index intLt (Val.num 0) s.code (((p >>> (2 * x)) &&& 0x03 : Nat) : Int)).1 with
  | .error e => .error e
  | .ok mat' =>
    .ok { s with
          code := (StdMap.index intLt (Val.num 0) s.code
            (((p >>> (2 * x)) &&& 0x03 : Nat) : Int)).2
          mat := mat' }

/-- Body of the loop over `j` in `read_bfile<T>`: the byte `buffer[j]` of block `i`. -/
def read_bfile_j (n ncol buffer_size i : Nat) (j : Nat) (s : Decoder) :
    Except Failure Decoder :=
  if n = 0 then .error .undefined
  else
    match s.buffer[j]? with
    | none => .error .undefined
    | some b =>
      forLoop (fun x => decide (x < 4 ∧ (i * buffer_size + j) % n * 4 + x < ncol))
        (read_bfile_x (b % 256) ((i * buffer_size + j) % n * 4) ((i * buffer_size + j) / n))
        4 0 s

/-- Body of the loop over blocks `i` in `read_bfile<T>`: the next `buffer_size` bytes
are read from the file and decoded. -/
def read_bfile_i (n ncol buffer_size payload_length : Nat) (i : Nat) (s : Decoder) :
    Except Failure Decoder :=
  forLoop (fun j => decide (j < buffer_size ∧ i * buffer_size + j < payload_length))
    (read_bfile_j n ncol buffer_size i) buffer_size 0
    { s with buffer := s.fin.take buffer_size, fin := s.fin.drop buffer_size }

/-- The part of `read_bfile<T>` after the file-name check, on the bytes `bed` of the
file. A file shorter than its 3-byte header makes `length - 3` negative: the signed
division and remainder of `n_block` round towards zero, and when `n_block <= 0` the loop
over blocks is not entered and the store is returned as it was; when `n_block` is 1 the
block is entered with a negative `buffer_size`, or with a test `i * buffer_size + j <
length - 3` that reads the negative `length - 3` as a huge unsigned bound, so that the
buffer is read unfilled. -/
def read_bfile_decode (w : Width) (bed : List Nat) (pMat : BigMatrix) (maxLine : Int) :
    Except Failure BigMatrix :=
  let n := bytes_per_row pMat.ncol
  let length := bed.length
  if length < 3 then
    let buffer_size : Int := if maxLine > 0 then maxLine * (n : Int) else (length : Int) - 3
    if buffer_size = 0 then .error .undefined
    else if Int.tdiv ((length : Int) - 3) buffer_size
        + (if Int.tmod ((length : Int) - 3) buffer_size ≠ 0 then 1 else 0) ≤ 0 then .ok pMat
    else .error .undefined
  else
    let buffer_size : Nat := if maxLine > 0 then maxLine.toNat * n else length - 3
    if buffer_size = 0 then .error .undefined
    else
      let n_block : Nat :=
        if (length - 3) % buffer_size ≠ 0 then (length - 3) / buffer_size + 1
        else (length - 3) / buffer_size
      match forLoop (fun i => decide (i < n_block))
          (read_bfile_i n pMat.ncol buffer_size (length - 3)) n_block 0
          { fin := bed.drop 3, buffer := bed.take 3, code := read_bfile_code w,
            mat := pMat } with
      | .error e => .error e
      | .ok s => .ok s.mat

/-- The template `read_bfile<T>`, `bed` being the bytes of the file of the resolved
name. -/
def read_bfile_T (w : Width) (bed_file : List Char) (bed : List Nat) (pMat : BigMatrix)
    (maxLine : Int) : Except Failure BigMatrix :=
  match bed_ending bed_file with
  | .error e => .error e
  | .ok _ => read_bfile_decode w bed pMat maxLine

/-- The exported `write_bfile`: the switch on `matrix_type()` selects the template
instance and its sentinel. -/
def write_bfile (pBigMat : BigMatrix) (bed_file : List Char) :
    Except Failure (List Char × List Nat) :=
  match pBigMat.matrix_type with
  | 1 => write_bfile_T .char pBigMat bed_file
  | 2 => write_bfile_T .short pBigMat bed_file
  | 4 => write_bfile_T .int pBigMat bed_file
  | 8 => write_bfile_T .double pBigMat bed_file
  | _ => .error .unknown_type

/-- The exported `read_bfile`: the switch on `matrix_type()` selects the template
instance and its sentinel. -/
def read_bfile (bed_file : List Char) (bed : List Nat) (pBigMat : BigMatrix)
    (maxLine : Int) : Except Failure BigMatrix :=
  match pBigMat.matrix_type with
  | 1 => read_bfile_T .char bed_file bed pBigMat maxLine
  | 2 => read_bfile_T .short bed_file bed pBigMat maxLine
  | 4 => read_bfile_T .int bed_file bed pBigMat maxLine
  | 8 => read_bfile_T .double bed_file bed pBigMat maxLine
  | _ => .error .unknown_type

/-! ## Strings, lines and fields -/

/-- Value of a `char` (signed, 8 bits) in `int` arithmetic. -/
def char_val (c : Char) : Int := wrap 8 (c.toNat : Int)

/-- Access `m[i]` on a `std::string`: the character at `i`, the terminating null at
`i = size()`, undefined beyond. -/
def string_at (m : List Char) (i : Nat) : Except Failure Char :=
  match m[i]? with
  | some c => .ok c
  | none => if i = m.length then .ok (Char.ofNat 0) else .error .undefined

/-- The lines that successive calls of `getline(file, line)` read until one fails: the
text is cut at every newline, and nothing follows a final newline. -/
def getlines : List Char → List (List Char)
  | [] => []
  | c :: cs =>
    if c = '\n' then [] :: getlines cs
    else
      match getlines cs with
      | [] => [[c]]
      | l :: ls => (c :: l) :: ls

/-- Fields of `boost::split(l, s, boost::is_any_of(delims))`: the text is cut at every
delimiter, two delimiters in a row enclosing an empty field. -/
def split (delims : List Char) : List Char → List (List Char)
  | [] => [[]]
  | c :: cs =>
    if c ∈ delims then [] :: split delims cs
    else
      match split delims cs with
      | [] => [[c]]
      | f :: fs => (c :: f) :: fs

/-- The header search `while (file) { getline(file, line); if (!line.compare(0,
prefix.size(), prefix)) { have_header = true; break; } }` on the lines of the file:
the first line that begins with `prefix` and the lines after it, or `none` when
`have_header` stays false. -/
def skip_header (pre : List Char) : List (List Char) → Option (List Char × List (List Char))
  | [] => none
  | line :: rest => if pre.isPrefixOf line then some (line, rest) else skip_header pre rest

/-- The header start `"#CHROM"`. -/
def vcf_head : List Char := ['#', 'C', 'H', 'R', 'O', 'M']

/-- The header start `"rs#"`. -/
def hapmap_head : List Char := ['r', 's', '#']

/-- The tab, the only delimiter of the VCF and HapMap scanners. -/
def tab : List Char := ['\t']

/-- The constant `MAP_INFO_N`. -/
def MAP_INFO_N : Nat := 50

/-! ## Genotype call decoders -/

/-- The template `vcf_marker_parser_T<T>(m, NA_C)`, with the `NA_C` of the width. The
second operand of `&&` is evaluated only when the first holds. -/
def vcf_marker_parser_T (w : Width) (m : List Char) : Except Failure Val :=
  match string_at m 0 with
  | .error e => .error e
  | .ok c0 =>
    if c0 ≠ '.' then
      match string_at m 2 with
      | .error e => .error e
      | .ok c2 =>
        if c2 ≠ '.' then .ok (castInt w (char_val c0 - char_val '0' + char_val c2 - char_val '0'))
        else .ok (NA w)
    else .ok (NA w)

/-- The template `hapmap_marker_parser_T<T>(m, major, NA_C)`, with the `NA_C` of the width.
The characters are inspected only when the length is 2. -/
def hapmap_marker_parser_T (w : Width) (m : List Char) (major : Char) : Val :=
  if m.length ≠ 2 ∨
      (m.getD 0 (Char.ofNat 0) ≠ 'A' ∧ m.getD 0 (Char.ofNat 0) ≠ 'T' ∧
        m.getD 0 (Char.ofNat 0) ≠ 'G' ∧ m.getD 0 (Char.ofNat 0) ≠ 'C') ∨
      (m.getD 1 (Char.ofNat 0) ≠ 'A' ∧ m.getD 1 (Char.ofNat 0) ≠ 'T' ∧
        m.getD 1 (Char.ofNat 0) ≠ 'G' ∧ m.getD 1 (Char.ofNat 0) ≠ 'C') then
    NA w
  else
    castInt w ((if m.getD 0 (Char.ofNat 0) = major then 0 else 1) +
      (if m.getD 1 (Char.ofNat 0) = major then 0 else 1))

/-! ## Genotype passes -/

/-- Conversion of a `T` to `char`, as done when `back_inserter(markers)` stores the
decoder's result in the `vector<char> markers`: integers wrap to 8 bits; a `double` that
is NaN or outside the range of `char` has no defined conversion. -/
def to_char : Width → Val → Except Failure Int
  | .double, .num x => if -128 ≤ x ∧ x ≤ 127 then .ok x else .error .undefined
  | _, .nan => .error .undefined
  | _, .num x => .ok (wrap 8 x)

/-- The call `transform(l.begin(), l.end(), back_inserter(markers), f)`. -/
def transform {α β : Type} (f : α → Except Failure β) : List α → Except Failure (List β)
  | [] => .ok []
  | a :: as =>
    match f a with
    | .error e => .error e
    | .ok b =>
      match transform f as with
      | .error e => .error e
      | .ok bs => .ok (b :: bs)

/-- The loop `for (i = 0; i < markers.size(); i++) mat[i][m] = markers[i];`, the `char`
being converted to `T`. -/
def store_markers (markers : List Int) (m : Nat) (mat : BigMatrix) : Except Failure BigMatrix :=
  forLoop (fun i => decide (i < markers.length))
    (fun i mat => mat.set? i m (.num (markers.getD i 0))) markers.length 0 mat

/-- Body of the loop over data lines in `vcf_parser_genotype<T>`. -/
def vcf_genotype_line (w : Width) (line : List Char) (m : Nat) (mat : BigMatrix) :
    Except Failure BigMatrix :=
  if (split tab line).length < 9 then .error .undefined
  else
    match transform
        (fun tok =>
          match vcf_marker_parser_T w tok with
          | .error e => .error e
          | .ok v => to_char w v)
        ((split tab line).drop 9) with
    | .error e => .error e
    | .ok markers => store_markers markers m mat

/-- The loop `while (getline(file, line)) { ...; m++; }` of `vcf_parser_genotype<T>`. -/
def vcf_genotype_lines (w : Width) : List (List Char) → Nat → BigMatrix → Except Failure BigMatrix
  | [], _, mat => .ok mat
  | line :: rest, m, mat =>
    match vcf_genotype_line w line m mat with
    | .error e => .error e
    | .ok mat' => vcf_genotype_lines w rest (m + 1) mat'

/-- The template `vcf_parser_genotype<T>` on the text `vcf_file` of the file. -/
def vcf_parser_genotype_T (w : Width) (vcf_file : List Char) (pMat : BigMatrix) :
    Except Failure BigMatrix :=
  match skip_header vcf_head (getlines vcf_file) with
  | none => .error .no_header
  | some (_, rest) => vcf_genotype_lines w rest 0 pMat

/-- The exported `vcf_parser_genotype`: the switch on `matrix_type()` selects the
template instance and its sentinel. -/
def vcf_parser_genotype (vcf_file : List Char) (pBigMat : BigMatrix) :
    Except Failure BigMatrix :=
  match pBigMat.matrix_type with
  | 1 => vcf_parser_genotype_T .char vcf_file pBigMat
  | 2 => vcf_parser_genotype_T .short vcf_file pBigMat
  | 4 => vcf_parser_genotype_T .int vcf_file pBigMat
  | 8 => vcf_parser_genotype_T .double vcf_file pBigMat
  | _ => .error .unknown_type

/-- Body of the loop over data lines in `hapmap_parser_genotype<T>`. -/
def hapmap_genotype_line (w : Width) (line : List Char) (m : Nat) (mat : BigMatrix) :
    Except Failure BigMatrix :=
  match (split tab line)[1]? with
  | none => .error .undefined
  | some l1 =>
    match string_at l1 0 with
    | .error e => .error e
    | .ok major =>
      if (split tab line).length < 11 then .error .undefined
      else
        match transform (fun tok => to_char w (hapmap_marker_parser_T w tok major))
            ((split tab line).drop 11) with
        | .error e => .error e
        | .ok markers => store_markers markers m mat

/-- The loop `while (getline(file, line)) { ...; m++; }` of `hapmap_parser_genotype<T>`. -/
def hapmap_genotype_lines (w : Width) :
    List (List Char) → Nat → BigMatrix → Except Failure BigMatrix
  | [], _, mat => .ok mat
  | line :: rest, m, mat =>
    match hapmap_genotype_line w line m mat with
    | .error e => .error e
    | .ok mat' => hapmap_genotype_lines w rest (m + 1) mat'

/-- The template `hapmap_parser_genotype<T>` on the text `hmp_file` of the file. -/
def hapmap_parser_genotype_T (w : Width) (hmp_file : List Char) (pMat : BigMatrix) :
    Except Failure BigMatrix :=
  match skip_header hapmap_head (getlines hmp_file) with
  | none => .error .no_header
  | some (_, rest) => hapmap_genotype_lines w rest 0 pMat

/-- The exported `hapmap_parser_genotype`: the switch on `matrix_type()` selects the
template instance and its sentinel. -/
def hapmap_parser_genotype (hmp_file : List Char) (pBigMat : BigMatrix) :
    Except Failure BigMatrix :=
  match pBigMat.matrix_type with
  | 1 => hapmap_parser_genotype_T .char hmp_file pBigMat
  | 2 => hapmap_parser_genotype_T .short hmp_file pBigMat
  | 4 => hapmap_parser_genotype_T .int hmp_file pBigMat
  | 8 => hapmap_parser_genotype_T .double hmp_file pBigMat
  | _ => .error .unknown_type

/-! ## Map passes -/

/-- What a map pass leaves behind: the lines written to `out.map`, the lines written to
`out.geno.ind`, and the returned pair `(n, m)` or the failure. -/
structure MapRun where
  map : List (List Char)
  indfile : List (List Char)
  result : Except Failure (Nat × Nat)

/-- The line `"SNP\tCHROM\tPOS"`. -/
def map_header : List Char :=
  ['S', 'N', 'P', '\t', 'C', 'H', 'R', 'O', 'M', '\t', 'P', 'O', 'S']

/-- The record `vcf_parser_map` writes for a data line: fields `l[2]`, `l[0]`, `l[1]` of
the first `MAP_INFO_N` characters, `l[2]` replaced by `l[0] + '-' + l[1]` when it is
`"."`. -/
def vcf_map_record (line : List Char) : Except Failure (List Char) :=
  match split tab (line.take MAP_INFO_N) with
  | l0 :: l1 :: l2 :: _ =>
    .ok ((if l2 = ['.'] then l0 ++ ['-'] ++ l1 else l2) ++ ['\t'] ++ l0 ++ ['\t'] ++ l1)
  | _ => .error .undefined

/-- The record `hapmap_parser_map` writes for a data line: fields `l[0]`, `l[2]`, `l[3]`
of the first `MAP_INFO_N` characters, `l[0]` replaced by `l[2] + '-' + l[3]` when it is
`"."`. -/
def hapmap_map_record (line : List Char) : Except Failure (List Char) :=
  match split tab (line.take MAP_INFO_N) with
  | l0 :: _ :: l2 :: l3 :: _ =>
    .ok ((if l0 = ['.'] then l2 ++ ['-'] ++ l3 else l0) ++ ['\t'] ++ l2 ++ ['\t'] ++ l3)
  | _ => .error .undefined

/-- The loop `while (getline(file, line)) { ...; map << ... << endl; m++; }` of a map
pass: the lines of `out.map` and the count `m`. -/
def map_lines (record : List Char → Except Failure (List Char)) :
    List (List Char) → List (List Char) → Nat → List (List Char) × Except Failure Nat
  | [], map, m => (map, .ok m)
  | line :: rest, map, m =>
    match record line with
    | .error e => (map, .error e)
    | .ok r => map_lines record rest (map ++ [r]) (m + 1)

/-- The function `vcf_parser_map` on the text `vcf_file` of the file. -/
def vcf_parser_map (vcf_file : List Char) : MapRun :=
  match skip_header vcf_head (getlines vcf_file) with
  | none => { map := [], indfile := [], result := .error .no_header }
  | some (line, rest) =>
    if (split tab line).length < 9 then
      { map := [], indfile := [], result := .error .undefined }
    else
      { map := (map_lines vcf_map_record rest [map_header] 0).1
        indfile := (split tab line).drop 9
        result :=
          match (map_lines vcf_map_record rest [map_header] 0).2 with
          | .error e => .error e
          | .ok m => .ok (((split tab line).drop 9).length, m) }

/-- State of `hapmap_parser_map` between two files: what is written so far, whether the
two output streams are still open, and `(n, m)` once assigned. -/
structure HapmapScan where
  map : List (List Char)
  indfile : List (List Char)
  is_open : Bool
  nm : Option (Nat × Nat)

/-- The loop over the files of `hapmap_parser_map`, followed by its `return`. Both output
streams are closed in the first iteration; what later iterations write is dropped. -/
def hapmap_map_files : List (List Char) → HapmapScan → MapRun
  | [], s =>
    { map := s.map, indfile := s.indfile,
      result := match s.nm with
        | some nm => .ok nm
        | none => .error .undefined }
  | file :: files, s =>
    match skip_header hapmap_head (getlines file) with
    | none => { map := s.map, indfile := s.indfile, result := .error .no_header }
    | some (line, rest) =>
      if (split tab line).length < 11 then
        { map := s.map, indfile := s.indfile, result := .error .undefined }
      else
        match (map_lines hapmap_map_record rest [map_header] 0).2 with
        | .error e =>
          { map := if s.is_open then s.map ++ (map_lines hapmap_map_record rest [map_header] 0).1
              else s.map
            indfile := if s.is_open then s.indfile ++ (split tab line).drop 11 else s.indfile
            result := .error e }
        | .ok m =>
          hapmap_map_files files
            { map := if s.is_open then
                  s.map ++ (map_lines hapmap_map_record rest [map_header] 0).1
                else s.map
              indfile := if s.is_open then s.indfile ++ (split tab line).drop 11 else s.indfile
              is_open := false
              nm := some (((split tab line).drop 11).length, m) }

/-- The function `hapmap_parser_map` on the texts `hmp_file` of its files. -/
def hapmap_parser_map (hmp_file : List (List Char)) : MapRun :=
  hapmap_map_files hmp_file { map := [], indfile := [], is_open := true, nm := none }

/-! ## Decoding: invariants of `read_bfile<T>` -/

/-- The decode mapping in the words of the specification: code 3 is dosage 0, code 2 is
dosage 1, code 0 is dosage 2 and code 1 is the width's missing sentinel. -/
def decode_table (w : Width) : Nat → Val
  | 3 => .num 0
  | 2 => .num 1
  | 0 => .num 2
  | _ => NA w

/-- The two-bit field `x` of byte `b`. -/
def field (b x : Nat) : Nat := (b >>> (2 * x)) &&& 0x03

/-- Cell `(c, r)` has been written once the bytes before offset `K` and the first `X`
fields of the byte at offset `K` are decoded. -/
def written (n ncol K X c r : Nat) : Prop :=
  c < ncol ∧ (r * n + c / 4 < K ∨ (r * n + c / 4 = K ∧ c % 4 < X))

/-- State of the store once the bytes before offset `K` and the first `X` fields of
the byte at offset `K` are decoded. -/
def DecInv (w : Width) (pMat : BigMatrix) (payload : List Nat) (K X : Nat)
    (s : Decoder) : Prop :=
  s.code = read_bfile_code w ∧ s.mat.nrow = pMat.nrow ∧ s.mat.ncol = pMat.ncol ∧
  s.mat.matrix_type = pMat.matrix_type ∧
  (∀ c r, written (bytes_per_row pMat.ncol) pMat.ncol K X c r →
    s.mat.cell c r =
      decode_table w (field (payload.getD (r * bytes_per_row pMat.ncol + c / 4) 0) (c % 4))) ∧
  (∀ c r, ¬ written (bytes_per_row pMat.ncol) pMat.ncol K X c r →
    s.mat.cell c r = pMat.cell c r)

/-- The store `s'` is `pMat` with every byte of `payload` decoded into it. -/
def Decoded (w : Width) (pMat : BigMatrix) (payload : List Nat) (s' : BigMatrix) : Prop :=
  s'.nrow = pMat.nrow ∧ s'.ncol = pMat.ncol ∧ s'.matrix_type = pMat.matrix_type ∧
  (∀ c r, c < pMat.ncol → r * bytes_per_row pMat.ncol + c / 4 < payload.length →
    s'.cell c r =
      decode_table w (field (payload.getD (r * bytes_per_row pMat.ncol + c / 4) 0) (c % 4))) ∧
  (∀ c r, ¬ (c < pMat.ncol ∧ r * bytes_per_row pMat.ncol + c / 4 < payload.length) →
    s'.cell c r = pMat.cell c r)

/-! ## Encoding: invariants of `write_bfile<T>` -/

/-- The encode mapping in the words of the specification: dosage 0 is code 3, dosage 1
is code 2, dosage 2 is code 0 and the missing sentinel is code 1. -/
def encode_table (w : Width) (v : Val) : Nat :=
  if v = NA w then 1 else if v = .num 0 then 3 else if v = .num 1 then 2 else 0

/-- The two-bit code the encoder computes for a cell value `c`: 1 when `isna(c)`, else
`code[c]` in the table as first built. -/
def cell_code (w : Width) (c : Val) : Nat :=
  if isna w c then 1 else (StdMap.index Val.lt 0 (write_bfile_code w) c).1

/-- The cell value is a dosage 0, 1, 2 or the width's missing sentinel. -/
def InDomain (w : Width) (v : Val) : Prop :=
  v = .num 0 ∨ v = .num 1 ∨ v = .num 2 ∨ v = NA w

instance (w : Width) (v : Val) : Decidable (InDomain w v) := by
  unfold InDomain; infer_instance

/-- Contribution of individual `x` of group `j` to the byte of row `i`, for a code
mapping `E`: its code shifted to bit pair `x`, or 0 when the group has no such
individual. -/
def shifted_code (E : Val → Nat) (pMat : BigMatrix) (i j x : Nat) : Nat :=
  if 4 * j + x < pMat.ncol then E (pMat.cell (4 * j + x) i) <<< (2 * x) else 0

/-- The byte of row `i` and group `j` for a code mapping `E`: the bitwise OR of the
shifted codes of its individuals. -/
def packed_byte (E : Val → Nat) (pMat : BigMatrix) (i j : Nat) : Nat :=
  shifted_code E pMat i j 0 ||| shifted_code E pMat i j 1 ||| shifted_code E pMat i j 2 |||
    shifted_code E pMat i j 3

/-- Bitwise OR of the first `x` values of `f`. -/
def orFields (f : Nat → Nat) : Nat → Nat
  | 0 => 0
  | x + 1 => orFields f x ||| f x

/-- The rows `0 .. m-1` of a BED body, `n` bytes each, row after row. -/
def bed_body (byte : Nat → Nat → Nat) (n : Nat) : Nat → List Nat
  | 0 => []
  | m + 1 => bed_body byte n m ++ (List.range n).map (byte m)

/-! ## Sample stores and files -/

/-- A store of the given type tag and shape with every cell equal to `v`. -/
def const_store (t nrow ncol : Nat) (v : Val) : BigMatrix :=
  { nrow := nrow, ncol := ncol, matrix_type := t, cell := fun _ _ => v }

/-- The file name `test.bed` of the R test block. -/
def test_bed : List Char := ['t', 'e', 's', 't', '.', 'b', 'e', 'd']

/-- The cell `mat[col][row]` of the store a call returned, if it returned. -/
def cell_of (x : Except Failure BigMatrix) (col row : Nat) : Option Val :=
  match x with
  | .ok s => some (s.cell col row)
  | .error _ => none

/-! ## Sample texts -/

/-- A VCF header line with two individuals. -/
def vcf_sample_header : List Char :=
  "#CHROM\tPOS\tID\tREF\tALT\tQUAL\tFILTER\tINFO\tFORMAT\tS1\tS2".toList

/-- A VCF data line without an id, with the calls `0/1` and `./.`. -/
def vcf_sample_row : List Char :=
  "1\t100\t.\tA\tG\t.\t.\t.\tGT\t0/1\t./.".toList

/-- A VCF text: a comment line, the header line and the data line. -/
def vcf_sample : List Char :=
  "##fileformat=VCFv4.2\n".toList ++ vcf_sample_header ++ ['\n'] ++ vcf_sample_row ++ ['\n']

/-- A HapMap header line with two individuals. -/
def hapmap_sample_header : List Char :=
  "rs#\talleles\tchrom\tpos\tstrand\tassembly#\tcenter\tprotLSID\tassayLSID\tpanelLSID\tQCcode\tI1\tI2".toList

/-- A HapMap data line with the calls `AG` and `NN`. -/
def hapmap_sample_row : List Char :=
  "rs1\tA/G\t1\t100\t+\tNA\tNA\tNA\tNA\tNA\tNA\tAG\tNN".toList

/-- A HapMap text: the header line and the data line. -/
def hapmap_sample : List Char :=
  hapmap_sample_header ++ ['\n'] ++ hapmap_sample_row ++ ['\n']

/-- The digit value `c - '0'` of a character. -/
def digit (c : Char) : Int := (c.toNat : Int) - 48

/-! ## Map passes: formats -/

/-- The two text formats with a map pass. -/
inductive Format
  | vcf
  | hapmap
  deriving DecidableEq, Repr

/-- The text a header line begins with: `"#CHROM"` or `"rs#"`. -/
def Format.head : Format → List Char
  | .vcf => vcf_head
  | .hapmap => hapmap_head

/-- Number of leading header columns that are not individuals: 9 or 11. -/
def Format.meta_columns : Format → Nat
  | .vcf => 9
  | .hapmap => 11

/-- Number of leading fields of a data line the map pass reads: 3 or 4. -/
def Format.map_fields : Format → Nat
  | .vcf => 3
  | .hapmap => 4

/-- The map pass of a format on the text of one file. -/
def parser_map : Format → List Char → MapRun
  | .vcf, file => vcf_parser_map file
  | .hapmap, file => hapmap_parser_map [file]

/-- The record function of a format. -/
def map_record : Format → List Char → Except Failure (List Char)
  | .vcf => vcf_map_record
  | .hapmap => hapmap_map_record

/-- The record of a data line in the words of the specification, from the
tab-separated fields of the whole line. VCF: id, chromosome, position are fields 2, 0,
1; HapMap: fields 0, 2, 3; an id `"."` is replaced by chromosome, `-`, position; the
record is id, chromosome, position joined by tabs. -/
def spec_map_record : Format → List Char → List Char
  | .vcf, line =>
    (if (split tab line).getD 2 [] = ['.'] then
        (split tab line).getD 0 [] ++ ['-'] ++ (split tab line).getD 1 []
      else (split tab line).getD 2 [])
      ++ ['\t'] ++ (split tab line).getD 0 [] ++ ['\t'] ++ (split tab line).getD 1 []
  | .hapmap, line =>
    (if (split tab line).getD 0 [] = ['.'] then
        (split tab line).getD 2 [] ++ ['-'] ++ (split tab line).getD 3 []
      else (split tab line).getD 0 [])
      ++ ['\t'] ++ (split tab line).getD 2 [] ++ ['\t'] ++ (split tab line).getD 3 []

/-- Number of characters the fields `fs` take in a line, the delimiters between them
included. -/
def span : List (List Char) → Nat
  | [] => 0
  | [f] => f.length
  | f :: g :: fs => f.length + 1 + span (g :: fs)

/-- The leading `k` fields of the line exist and lie within its first `MAP_INFO_N`
characters. -/
def LeadingFieldsFit (k : Nat) (line : List Char) : Prop :=
  k ≤ (split tab line).length ∧ span ((split tab line).take k) ≤ MAP_INFO_N

instance (k : Nat) (line : List Char) : Decidable (LeadingFieldsFit k line) := by
  unfold LeadingFieldsFit; infer_instance

/-- The record a map pass writes for a data line, empty where the line gives none. -/
def written_record (fmt : Format) (line : List Char) : List Char :=
  match map_record fmt line with
  | .ok r => r
  | .error _ => []

/-! ## Numeric scan -/

/-- The delimiters `"\t ,"` of `numeric_scan`. -/
def numeric_delims : List Char := ['\t', ' ', ',']

/-- The loop `while (getline(file, line)) m++;` of `numeric_scan`. -/
def count_lines : List (List Char) → Nat → Nat
  | [], m => m
  | _ :: rest, m => count_lines rest (m + 1)

/-- The function `numeric_scan` on the text `num_file` of the file: the pair `(n, m)`.
The first `getline` is not tested; when it fails `line` is empty. -/
def numeric_scan (num_file : List Char) : Nat × Nat :=
  ((split numeric_delims ((getlines num_file).headD [])).length,
    count_lines (getlines num_file).tail 1)

/-! ## Blocks of the decoder -/

/-- The value of `buffer_size` in `read_bfile<T>` for `n` bytes per row and a payload of
`L` bytes: `maxLine > 0 ? maxLine * n : length - 3`. -/
def buffer_size_of (maxLine : Int) (n L : Nat) : Nat :=
  if maxLine > 0 then maxLine.toNat * n else L

/-- The value of `n_block` in `read_bfile<T>`: `(length - 3) / buffer_size`, plus one when
`(length - 3) % buffer_size != 0`. -/
def n_block_of (L buffer_size : Nat) : Nat :=
  if L % buffer_size ≠ 0 then L / buffer_size + 1 else L / buffer_size

/-- The pair (block `i`, position `j`) passes the tests of the two outer loops of
`read_bfile<T>`: the byte at `buffer[j]` of block `i` is processed. -/
def processed (L buffer_size i j : Nat) : Prop :=
  i < n_block_of L buffer_size ∧ j < buffer_size ∧ i * buffer_size + j < L

instance (L buffer_size i j : Nat) : Decidable (processed L buffer_size i j) := by
  unfold processed; infer_instance

/-- The store rows `r = (i * buffer_size + j) / n` that block `i` writes, over the
positions `j` that pass the test of its loop. -/
def block_rows (n buffer_size L i : Nat) : List Nat :=
  ((List.range buffer_size).filter (fun j => decide (i * buffer_size + j < L))).map
    (fun j => (i * buffer_size + j) / n)

/-! ## Dispatch and loaders by format -/

/-- The element type selected by the switch on `matrix_type()`. -/
def width_of_tag : Nat → Option Width
  | 1 => some .char
  | 2 => some .short
  | 4 => some .int
  | 8 => some .double
  | _ => none

/-- The genotype-pass template of a format. -/
def parser_genotype_T : Format → Width → List Char → BigMatrix → Except Failure BigMatrix
  | .vcf => vcf_parser_genotype_T
  | .hapmap => hapmap_parser_genotype_T

/-! ## Sample lines longer than `MAP_INFO_N` -/

/-- A VCF data line whose id runs beyond character 50. -/
def long_row_a : List Char :=
  "chr1\t12345\trs_aaaaaaaaaaaaaaaaaaaaaaaaaaaaaaaaaaaaAAAA\tA\tG\t.\t.\t.\tGT\t0/1\t./.".toList

/-- A VCF data line with the same first 50 characters and another end. -/
def long_row_b : List Char :=
  "chr1\t12345\trs_aaaaaaaaaaaaaaaaaaaaaaaaaaaaaaaaaaaaBBBB\tC\tT\t.\t.\t.\tGT\t1/1\t0/0".toList

/-! ## The code table under look-ups -/

/-- A store of one row whose cells are the values of a list. -/
def row_store (t : Nat) (cells : List Val) : BigMatrix :=
  { nrow := 1, ncol := cells.length, matrix_type := t,
    cell := fun c _ => cells.getD c (.num 0) }

/-! # Theorems -/

/-! ## Loop rule -/

/-- Invariant rule for `forLoop`: when every iteration whose test holds succeeds and
re-establishes the invariant, the loop returns, at the first index `x'` whose test
fails (or when the fuel is used up). -/
theorem forLoop_ok {σ : Type} (cond : Nat → Bool) (body : Nat → σ → Except Failure σ)
    (Inv : Nat → σ → Prop)
    (hstep : ∀ x s, cond x = true → Inv x s → ∃ s', body x s = .ok s' ∧ Inv (x + 1) s') :
    ∀ (fuel x : Nat) (s : σ), Inv x s →
      ∃ x' s', forLoop cond body fuel x s = .ok s' ∧ Inv x' s' ∧ x ≤ x' ∧ x' ≤ x + fuel ∧
        (∀ y, x ≤ y → y < x' → cond y = true) ∧ (cond x' = false ∨ x' = x + fuel) := by
  intro fuel
  induction fuel with
  | zero =>
    intro x s h
    exact ⟨x, s, rfl, h, le_refl _, le_refl _, fun y h1 h2 => absurd h1 (by omega), Or.inr rfl⟩
  | succ k ih =>
    intro x s h
    by_cases hc : cond x = true
    · obtain ⟨s1, hb, h1⟩ := hstep x s hc h
      obtain ⟨x', s', hr, hi, hle, hle2, hall, hex⟩ := ih (x + 1) s1 h1
      refine ⟨x', s', ?_, hi, by omega, by omega, ?_, ?_⟩
      · simp only [forLoop, hc, if_true, hb]
        exact hr
      · intro y hy1 hy2
        by_cases hxy : y = x
        · subst hxy; exact hc
        · exact hall y (by omega) hy2
      · rcases hex with h | h
        · exact Or.inl h
        · exact Or.inr (by omega)
    · refine ⟨x, s, ?_, h, le_refl _, by omega, fun y h1 h2 => absurd h1 (by omega), Or.inl ?_⟩
      · simp only [forLoop, hc]
        rfl
      · simpa using hc

/-! ## Arithmetic of rows and bytes -/

theorem bytes_per_row_eq (ncol : Nat) : bytes_per_row ncol = (ncol + 3) / 4 := by
  unfold bytes_per_row
  split <;> omega

theorem div4_lt_bytes_per_row {c ncol : Nat} (h : c < ncol) : c / 4 < bytes_per_row ncol := by
  rw [bytes_per_row_eq]; omega

theorem bytes_per_row_pos {ncol : Nat} (h : 1 ≤ ncol) : 0 < bytes_per_row ncol := by
  rw [bytes_per_row_eq]; omega

theorem group_start_lt {a ncol : Nat} (h : a < bytes_per_row ncol) : a * 4 < ncol := by
  rw [bytes_per_row_eq] at h; omega

theorem byte_index_div {n r a : Nat} (ha : a < n) : (r * n + a) / n = r := by
  have hn : 0 < n := by omega
  rw [Nat.add_comm, Nat.add_mul_div_right _ _ hn, Nat.div_eq_of_lt ha, Nat.zero_add]

theorem byte_index_mod {n r a : Nat} (ha : a < n) : (r * n + a) % n = a := by
  rw [Nat.add_comm, Nat.add_mul_mod_self_right, Nat.mod_eq_of_lt ha]

theorem field_mod_256 (b x : Nat) (hx : x < 4) :
    ((b % 256) >>> (2 * x)) &&& 0x03 = (b >>> (2 * x)) &&& 0x03 := by
  have h3 : (3 : Nat) = 2 ^ 2 - 1 := by norm_num
  rw [h3, Nat.and_pow_two_sub_one_eq_mod, Nat.and_pow_two_sub_one_eq_mod,
    Nat.shiftRight_eq_div_pow, Nat.shiftRight_eq_div_pow]
  interval_cases x <;> norm_num <;> omega

theorem field_lt_4 (b x : Nat) : (b >>> (2 * x)) &&& 0x03 < 4 := by
  have h3 : (3 : Nat) = 2 ^ 2 - 1 := by norm_num
  rw [h3, Nat.and_pow_two_sub_one_eq_mod]
  exact Nat.mod_lt _ (by norm_num)

theorem read_bfile_code_index (w : Width) (k : Nat) (hk : k < 4) :
    StdMap.index intLt (Val.num 0) (read_bfile_code w) (k : Int)
      = (decode_table w k, read_bfile_code w) := by
  interval_cases k <;> cases w <;> rfl

theorem written_next_byte {n ncol K X c r : Nat} (hn : n = bytes_per_row ncol)
    (hX : X = 4 ∨ ncol ≤ K % n * 4 + X) :
    written n ncol (K + 1) 0 c r ↔ written n ncol K X c r := by
  unfold written
  constructor
  · rintro ⟨hc, h | ⟨_, h⟩⟩
    · refine ⟨hc, ?_⟩
      by_cases he : r * n + c / 4 = K
      · right
        refine ⟨he, ?_⟩
        rcases hX with hX | hX
        · omega
        · have ha : c / 4 < n := hn ▸ div4_lt_bytes_per_row hc
          have := byte_index_mod (r := r) ha
          rw [he] at this
          omega
      · left; omega
    · omega
  · rintro ⟨hc, h | ⟨h, _⟩⟩
    · exact ⟨hc, Or.inl (by omega)⟩
    · exact ⟨hc, Or.inl (by omega)⟩

theorem read_bfile_x_ok (w : Width) (pMat : BigMatrix) (payload : List Nat) (K b : Nat)
    (hb : payload[K]? = some b) (hrow : K / bytes_per_row pMat.ncol < pMat.nrow)
    (hn : 0 < bytes_per_row pMat.ncol) (x : Nat) (s : Decoder)
    (hc : decide (x < 4 ∧ K % bytes_per_row pMat.ncol * 4 + x < pMat.ncol) = true)
    (hinv : DecInv w pMat payload K x s) :
    ∃ s', read_bfile_x (b % 256) (K % bytes_per_row pMat.ncol * 4)
        (K / bytes_per_row pMat.ncol) x s = .ok s' ∧ DecInv w pMat payload K (x + 1) s' ∧
      s'.fin = s.fin ∧ s'.buffer = s.buffer := by
  obtain ⟨hcode, hnr, hnc, hmt, hw, hnw⟩ := hinv
  simp only [decide_eq_true_eq] at hc
  obtain ⟨hx4, hcx⟩ := hc
  set n := bytes_per_row pMat.ncol with hndef
  have hfield : ((b % 256) >>> (2 * x)) &&& 0x03 = field b x := field_mod_256 b x hx4
  have hidx := read_bfile_code_index w (field b x) (field_lt_4 b x)
  have hset : s.mat.set? (K % n * 4 + x) (K / n) (decode_table w (field b x))
      = .ok { s.mat with cell := fun c r =>
          if c = K % n * 4 + x ∧ r = K / n then decode_table w (field b x)
          else s.mat.cell c r } := by
    unfold BigMatrix.set?
    rw [if_pos]
    rw [hnc, hnr]
    exact ⟨hcx, hrow⟩
  refine ⟨⟨s.fin, s.buffer, read_bfile_code w, ⟨s.mat.nrow, s.mat.ncol, s.mat.matrix_type,
    fun c r => if c = K % n * 4 + x ∧ r = K / n then decode_table w (field b x)
      else s.mat.cell c r⟩⟩, ?_, ?_, rfl, rfl⟩
  · unfold read_bfile_x
    rw [hfield, hcode, hidx]
    simp only
    rw [hset]
  · have hmod : K % n < n := Nat.mod_lt _ hn
    have hKeq : K / n * n + K % n = K := by
      rw [Nat.mul_comm]; exact Nat.div_add_mod K n
    refine ⟨rfl, hnr, hnc, hmt, ?_, ?_⟩
    · intro c r hwr
      simp only
      by_cases htgt : c = K % n * 4 + x ∧ r = K / n
      · rw [if_pos htgt]
        obtain ⟨h1, h2⟩ := htgt
        have e1 : c / 4 = K % n := by omega
        have e2 : c % 4 = x := by omega
        rw [e1, e2, h2, hKeq]
        have : payload.getD K 0 = b := by
          rw [List.getD_eq_getElem?_getD, hb]; rfl
        rw [this]
      · rw [if_neg htgt]
        apply hw
        obtain ⟨h1, h2⟩ := hwr
        refine ⟨h1, ?_⟩
        rcases h2 with h2 | ⟨h2, h3⟩
        · exact Or.inl h2
        · right
          refine ⟨h2, ?_⟩
          by_contra hcon
          have e2 : c % 4 = x := by omega
          have ha : c / 4 < n := div4_lt_bytes_per_row h1
          have hd := byte_index_div (r := r) ha
          have hm := byte_index_mod (r := r) ha
          rw [h2] at hd hm
          exact htgt ⟨by omega, hd.symm⟩
    · intro c r hnwr
      simp only
      by_cases htgt : c = K % n * 4 + x ∧ r = K / n
      · exfalso
        apply hnwr
        obtain ⟨h1, h2⟩ := htgt
        refine ⟨by omega, Or.inr ⟨?_, by omega⟩⟩
        have e1 : c / 4 = K % n := by omega
        rw [e1, h2, hKeq]
      · rw [if_neg htgt]
        apply hnw
        intro hwr
        apply hnwr
        obtain ⟨h1, h2⟩ := hwr
        refine ⟨h1, ?_⟩
        rcases h2 with h2 | ⟨h2, h3⟩
        · exact Or.inl h2
        · exact Or.inr ⟨h2, by omega⟩

theorem block_start_lt {L bs i : Nat} (hbs : 0 < bs)
    (hi : i < (if L % bs ≠ 0 then L / bs + 1 else L / bs)) : i * bs < L := by
  have hdm := Nat.div_add_mod L bs
  split at hi
  · rename_i hne
    have h1 : i * bs ≤ L / bs * bs := Nat.mul_le_mul_right bs (by omega)
    have h2 : L / bs * bs = bs * (L / bs) := Nat.mul_comm _ _
    have h3 : 0 < L % bs := Nat.pos_of_ne_zero hne
    omega
  · have h1 : (i + 1) * bs ≤ L / bs * bs := Nat.mul_le_mul_right bs (by omega)
    have h2 : L / bs * bs = bs * (L / bs) := Nat.mul_comm _ _
    have h3 : (i + 1) * bs = i * bs + bs := by ring
    omega

theorem blocks_cover {L bs : Nat} (hbs : 0 < bs) :
    L ≤ (if L % bs ≠ 0 then L / bs + 1 else L / bs) * bs := by
  have hdm := Nat.div_add_mod L bs
  have hlt := Nat.mod_lt L hbs
  have h2 : L / bs * bs = bs * (L / bs) := Nat.mul_comm _ _
  split
  · have h3 : (L / bs + 1) * bs = L / bs * bs + bs := by ring
    omega
  · omega

theorem read_bfile_j_ok (w : Width) (pMat : BigMatrix) (payload : List Nat)
    (bs i : Nat) (hn : 0 < bytes_per_row pMat.ncol)
    (j : Nat) (s : Decoder)
    (hrow : (i * bs + j) / bytes_per_row pMat.ncol < pMat.nrow)
    (hc : decide (j < bs ∧ i * bs + j < payload.length) = true)
    (hbuf : s.buffer = (payload.drop (i * bs)).take bs)
    (hinv : DecInv w pMat payload (i * bs + j) 0 s) :
    ∃ s', read_bfile_j (bytes_per_row pMat.ncol) pMat.ncol bs i j s = .ok s' ∧
      DecInv w pMat payload (i * bs + j + 1) 0 s' ∧ s'.fin = s.fin ∧ s'.buffer = s.buffer := by
  simp only [decide_eq_true_eq] at hc
  obtain ⟨hj, hK⟩ := hc
  set n := bytes_per_row pMat.ncol with hndef
  set K := i * bs + j with hKdef
  have hb : s.buffer[j]? = some (payload[K]) := by
    rw [hbuf, List.getElem?_take, if_pos hj, List.getElem?_drop]
    exact List.getElem?_eq_getElem hK
  obtain ⟨x', s', hrun, ⟨hinv', hfin, hbuf'⟩, _, hle, hall, hex⟩ :=
    forLoop_ok (fun x => decide (x < 4 ∧ K % n * 4 + x < pMat.ncol))
      (read_bfile_x (payload[K] % 256) (K % n * 4) (K / n))
      (fun x t => DecInv w pMat payload K x t ∧ t.fin = s.fin ∧ t.buffer = s.buffer)
      (by
        intro x t hcx ⟨hi1, hi2, hi3⟩
        obtain ⟨t', h1, h2, h3, h4⟩ :=
          read_bfile_x_ok w pMat payload K (payload[K]) (List.getElem?_eq_getElem hK) hrow hn
            x t hcx hi1
        exact ⟨t', h1, h2, h3.trans hi2, h4.trans hi3⟩)
      4 0 s ⟨hinv, rfl, rfl⟩
  refine ⟨s', ?_, ?_, hfin, hbuf'⟩
  · unfold read_bfile_j
    rw [if_neg (by omega), hb]
    exact hrun
  · have hX : x' = 4 ∨ pMat.ncol ≤ K % n * 4 + x' := by
      rcases hex with h | h
      · simp only [decide_eq_false_iff_not, not_and_or] at h
        omega
      · omega
    obtain ⟨h1, h2, h3, h4, h5, h6⟩ := hinv'
    refine ⟨h1, h2, h3, h4, ?_, ?_⟩
    · intro c r hw
      exact h5 c r ((written_next_byte hndef hX).mp hw)
    · intro c r hw
      exact h6 c r (fun h => hw ((written_next_byte hndef hX).mpr h))

theorem read_bfile_i_ok (w : Width) (pMat : BigMatrix) (payload : List Nat)
    (bs : Nat) (hn : 0 < bytes_per_row pMat.ncol)
    (i : Nat) (s : Decoder) (hi : i * bs < payload.length)
    (hlim : min ((i + 1) * bs) payload.length ≤ pMat.nrow * bytes_per_row pMat.ncol)
    (hfin : s.fin = payload.drop (i * bs))
    (hinv : DecInv w pMat payload (i * bs) 0 s) :
    ∃ s', read_bfile_i (bytes_per_row pMat.ncol) pMat.ncol bs payload.length i s = .ok s' ∧
      DecInv w pMat payload (min ((i + 1) * bs) payload.length) 0 s' ∧
      s'.fin = payload.drop ((i + 1) * bs) := by
  obtain ⟨j', s', hrun, ⟨hinv', hfin', hbuf'⟩, _, hle, hall, hex⟩ :=
    forLoop_ok (fun j => decide (j < bs ∧ i * bs + j < payload.length))
      (read_bfile_j (bytes_per_row pMat.ncol) pMat.ncol bs i)
      (fun j t => DecInv w pMat payload (i * bs + j) 0 t ∧
        t.fin = payload.drop ((i + 1) * bs) ∧ t.buffer = (payload.drop (i * bs)).take bs)
      (by
        intro j t hcj ⟨hi1, hi2, hi3⟩
        have hrow : (i * bs + j) / bytes_per_row pMat.ncol < pMat.nrow := by
          have hcj' := hcj
          simp only [decide_eq_true_eq] at hcj'
          have h3 : (i + 1) * bs = i * bs + bs := by ring
          have hlim' := hlim
          rw [h3] at hlim'
          have hK : i * bs + j < pMat.nrow * bytes_per_row pMat.ncol := by omega
          exact Nat.div_lt_of_lt_mul (by rw [Nat.mul_comm _ pMat.nrow]; exact hK)
        obtain ⟨t', h1, h2, h3, h4⟩ := read_bfile_j_ok w pMat payload bs i hn j t hrow hcj hi3 hi1
        exact ⟨t', h1, h2, h3.trans hi2, h4.trans hi3⟩)
      bs 0 { s with buffer := s.fin.take bs, fin := s.fin.drop bs }
      ⟨⟨hinv.1, hinv.2.1, hinv.2.2.1, hinv.2.2.2.1, hinv.2.2.2.2.1, hinv.2.2.2.2.2⟩, by
        simp only [hfin, List.drop_drop]
        congr 1; ring, by simp only [hfin]⟩
  refine ⟨s', hrun, ?_, hfin'⟩
  have hK : i * bs + j' = min ((i + 1) * bs) payload.length := by
    have h3 : (i + 1) * bs = i * bs + bs := by ring
    have hle' : i * bs + j' ≤ payload.length := by
      by_cases hj0 : j' = 0
      · omega
      · have := hall (j' - 1) (by omega) (by omega)
        simp only [decide_eq_true_eq] at this
        omega
    rcases hex with h | h
    · simp only [decide_eq_false_iff_not, not_and_or] at h
      omega
    · omega
  rw [← hK]
  exact hinv'

theorem BigMatrix.ext_cells {a b : BigMatrix} (h1 : a.nrow = b.nrow) (h2 : a.ncol = b.ncol)
    (h3 : a.matrix_type = b.matrix_type) (h4 : ∀ c r, a.cell c r = b.cell c r) : a = b := by
  cases a; cases b
  simp only at h1 h2 h3 h4
  subst h1 h2 h3
  congr
  funext c r
  exact h4 c r

theorem Decoded_unique {w : Width} {pMat : BigMatrix} {payload : List Nat}
    {s1 s2 : BigMatrix} (h1 : Decoded w pMat payload s1) (h2 : Decoded w pMat payload s2) :
    s1 = s2 := by
  obtain ⟨a1, a2, a3, a4, a5⟩ := h1
  obtain ⟨b1, b2, b3, b4, b5⟩ := h2
  apply BigMatrix.ext_cells (a1.trans b1.symm) (a2.trans b2.symm) (a3.trans b3.symm)
  intro c r
  by_cases h : c < pMat.ncol ∧ r * bytes_per_row pMat.ncol + c / 4 < payload.length
  · rw [a4 c r h.1 h.2, b4 c r h.1 h.2]
  · rw [a5 c r h, b5 c r h]

/-- Total correctness of the decoding part of `read_bfile<T>`: on a file with a 3-byte
header, a store with at least one column and enough rows for the payload, and a
payload that is not empty unless `maxLine > 0`, the call returns the store with every
payload byte decoded. -/
theorem read_bfile_decode_ok (w : Width) (pMat : BigMatrix) (hdr payload : List Nat)
    (maxLine : Int) (hhdr : hdr.length = 3) (hcol : 1 ≤ pMat.ncol)
    (hfit : payload.length ≤ pMat.nrow * bytes_per_row pMat.ncol)
    (hne : payload ≠ [] ∨ 0 < maxLine) :
    ∃ s', read_bfile_decode w (hdr ++ payload) pMat maxLine = .ok s' ∧
      Decoded w pMat payload s' := by
  have hn : 0 < bytes_per_row pMat.ncol := bytes_per_row_pos hcol
  have hlen : (hdr ++ payload).length = payload.length + 3 := by
    rw [List.length_append, hhdr, Nat.add_comm]
  have hdrop : (hdr ++ payload).drop 3 = payload := List.drop_left' hhdr
  set n := bytes_per_row pMat.ncol with hndef
  set bs : Nat := if maxLine > 0 then maxLine.toNat * n else payload.length with hbsdef
  have hbs : 0 < bs := by
    rw [hbsdef]
    split
    · rename_i hm
      have : 0 < maxLine.toNat := by omega
      exact Nat.mul_pos this hn
    · rename_i hm
      rcases hne with h | h
      · exact List.length_pos.mpr h
      · exact absurd h hm
  set nb : Nat := if payload.length % bs ≠ 0 then payload.length / bs + 1
    else payload.length / bs with hnbdef
  obtain ⟨i', s', hrun, ⟨hinv', _⟩, _, hle, _, hex⟩ :=
    forLoop_ok (fun i => decide (i < nb))
      (read_bfile_i n pMat.ncol bs payload.length)
      (fun i t => DecInv w pMat payload (min (i * bs) payload.length) 0 t ∧
        t.fin = payload.drop (i * bs))
      (by
        intro i t hci ⟨hi1, hi2⟩
        simp only [decide_eq_true_eq] at hci
        have hlt : i * bs < payload.length := block_start_lt hbs hci
        rw [Nat.min_eq_left (le_of_lt hlt)] at hi1
        exact read_bfile_i_ok w pMat payload bs hn i t hlt
          (le_trans (Nat.min_le_right _ _) hfit) hi2 hi1)
      nb 0 { fin := payload, buffer := (hdr ++ payload).take 3, code := read_bfile_code w,
             mat := pMat }
      ⟨⟨rfl, rfl, rfl, rfl, by
          intro c r hw
          exfalso
          obtain ⟨_, h | ⟨_, h⟩⟩ := hw <;> simp at h, by
          intro c r _
          rfl⟩, by simp⟩
  have hi' : i' = nb := by
    rcases hex with h | h
    · simp only [decide_eq_false_iff_not] at h
      omega
    · omega
  have hK : min (i' * bs) payload.length = payload.length := by
    rw [hi']
    exact Nat.min_eq_right (blocks_cover hbs)
  rw [hK] at hinv'
  refine ⟨s'.mat, ?_, ?_⟩
  · unfold read_bfile_decode
    simp only [hlen, hdrop, Nat.add_sub_cancel]
    rw [if_neg (by omega)]
    simp only [← hndef]
    simp only [← hbsdef]
    simp only [← hnbdef]
    rw [if_neg (by omega), hrun]
  · obtain ⟨_, h2, h3, h4, h5, h6⟩ := hinv'
    refine ⟨h2, h3, h4, ?_, ?_⟩
    · intro c r hc hr
      exact h5 c r ⟨hc, Or.inl hr⟩
    · intro c r hnot
      apply h6
      rintro ⟨hc, h | ⟨_, h⟩⟩
      · exact hnot ⟨hc, h⟩
      · omega

theorem write_code_stable (w : Width) (v : Val) (hd : InDomain w v) (hna : isna w v = false) :
    (StdMap.index Val.lt 0 (write_bfile_code w) v).2 = write_bfile_code w := by
  rcases hd with h | h | h | h <;> subst h <;> cases w <;> rfl

theorem cell_code_lt (w : Width) (v : Val) (hd : InDomain w v) : cell_code w v < 4 := by
  rcases hd with h | h | h | h <;> subst h <;> cases w <;> decide

theorem cell_code_eq_encode_table (w : Width) (hw : w ≠ .double) (v : Val)
    (hd : InDomain w v) : cell_code w v = encode_table w v := by
  rcases hd with h | h | h | h <;> subst h <;> cases w <;> first | rfl | exact absurd rfl hw

theorem orFields_four (f : Nat → Nat) : orFields f 4 = f 0 ||| f 1 ||| f 2 ||| f 3 := by
  simp only [orFields, Nat.zero_or]

theorem orFields_eq_of_zero (f : Nat → Nat) (x : Nat) (h : ∀ y, x ≤ y → f y = 0) :
    ∀ k, orFields f (x + k) = orFields f x := by
  intro k
  induction k with
  | zero => rfl
  | succ k ih =>
    show orFields f (x + k) ||| f (x + k) = _
    rw [ih, h (x + k) (by omega), Nat.or_zero]

theorem write_bfile_x_ok (w : Width) (pMat : BigMatrix) (i j : Nat) (hi : i < pMat.nrow)
    (hd : ∀ c, c < pMat.ncol → InDomain w (pMat.cell c i))
    (x : Nat) (s : Encoder) (hc : decide (x < 4 ∧ 4 * j + x < pMat.ncol) = true)
    (hcode : s.code = write_bfile_code w)
    (hp : s.p = orFields (shifted_code (cell_code w) pMat i j) x) (hlt : s.p < 2 ^ (2 * x)) :
    ∃ s', write_bfile_x w pMat i j x s = .ok s' ∧ s'.code = write_bfile_code w ∧
      s'.geno = s.geno ∧ s'.fout = s.fout ∧
      s'.p = orFields (shifted_code (cell_code w) pMat i j) (x + 1) ∧
      s'.p < 2 ^ (2 * (x + 1)) := by
  simp only [decide_eq_true_eq] at hc
  obtain ⟨hx4, hcx⟩ := hc
  have hdom := hd _ hcx
  have hget : pMat.get? (4 * j + x) i = .ok (pMat.cell (4 * j + x) i) := by
    unfold BigMatrix.get?
    rw [if_pos ⟨hcx, hi⟩]
  have hcc := cell_code_lt w _ hdom
  have hsc : shifted_code (cell_code w) pMat i j x
      = cell_code w (pMat.cell (4 * j + x) i) <<< (x * 2) := by
    unfold shifted_code
    rw [if_pos hcx, Nat.mul_comm 2 x]
  have hbound : s.p ||| cell_code w (pMat.cell (4 * j + x) i) <<< (x * 2)
      < 2 ^ (2 * (x + 1)) := by
    apply Nat.or_lt_two_pow
    · exact lt_of_lt_of_le hlt (Nat.pow_le_pow_right (by norm_num) (by omega))
    · rw [Nat.shiftLeft_eq]
      have h1 : (2 : Nat) ^ (2 * (x + 1)) = 4 * 2 ^ (x * 2) := by
        rw [show 2 * (x + 1) = 2 + x * 2 by ring, pow_add]; norm_num
      rw [h1]
      exact Nat.mul_lt_mul_of_pos_right hcc (by positivity)
  have h256 : (2 : Nat) ^ (2 * (x + 1)) ≤ 256 := by
    have : (256 : Nat) = 2 ^ 8 := by norm_num
    rw [this]
    exact Nat.pow_le_pow_right (by norm_num) (by omega)
  have hmod : (s.p ||| cell_code w (pMat.cell (4 * j + x) i) <<< (x * 2)) % 256
      = s.p ||| cell_code w (pMat.cell (4 * j + x) i) <<< (x * 2) :=
    Nat.mod_eq_of_lt (lt_of_lt_of_le hbound h256)
  have hnext : orFields (shifted_code (cell_code w) pMat i j) (x + 1)
      = s.p ||| cell_code w (pMat.cell (4 * j + x) i) <<< (x * 2) := by
    show orFields _ x ||| _ = _
    rw [← hp, hsc]
  unfold write_bfile_x
  rw [hget]
  simp only
  by_cases hna : isna w (pMat.cell (4 * j + x) i) = true
  · have h1 : cell_code w (pMat.cell (4 * j + x) i) = 1 := by
      unfold cell_code; rw [if_pos hna]
    rw [if_pos hna]
    rw [h1] at hmod hnext hbound
    exact ⟨_, rfl, hcode, rfl, rfl, by rw [hnext]; exact hmod, by
      show (s.p ||| 1 <<< (x * 2)) % 256 < _
      rw [hmod]; exact hbound⟩
  · have hna' : isna w (pMat.cell (4 * j + x) i) = false := by simpa using hna
    have h1 : cell_code w (pMat.cell (4 * j + x) i)
        = (StdMap.index Val.lt 0 (write_bfile_code w) (pMat.cell (4 * j + x) i)).1 := by
      unfold cell_code; rw [if_neg hna]
    rw [if_neg hna, hcode]
    refine ⟨_, rfl, write_code_stable w _ hdom hna', rfl, rfl, ?_, ?_⟩
    · show (s.p ||| _ <<< (x * 2)) % 256 = _
      rw [← h1, hmod, hnext]
    · show (s.p ||| _ <<< (x * 2)) % 256 < _
      rw [← h1, hmod]; exact hbound

theorem write_bfile_j_ok (w : Width) (pMat : BigMatrix) (i : Nat) (hi : i < pMat.nrow)
    (hd : ∀ c, c < pMat.ncol → InDomain w (pMat.cell c i))
    (j : Nat) (s : Encoder)
    (hcode : s.code = write_bfile_code w) :
    ∃ s', write_bfile_j w pMat i j s = .ok s' ∧ s'.code = write_bfile_code w ∧
      s'.geno = s.geno.set j (packed_byte (cell_code w) pMat i j) ∧ s'.fout = s.fout := by
  obtain ⟨x', s', hrun, ⟨h1, h2, h3, h4, h5⟩, _, hle, _, hex⟩ :=
    forLoop_ok (fun x => decide (x < 4 ∧ 4 * j + x < pMat.ncol))
      (write_bfile_x w pMat i j)
      (fun x t => t.code = write_bfile_code w ∧ t.geno = s.geno ∧ t.fout = s.fout ∧
        t.p = orFields (shifted_code (cell_code w) pMat i j) x ∧ t.p < 2 ^ (2 * x))
      (by
        intro x t hcx ⟨a1, a2, a3, a4, a5⟩
        obtain ⟨t', b0, b1, b2, b3, b4, b5⟩ := write_bfile_x_ok w pMat i j hi hd x t hcx a1 a4 a5
        exact ⟨t', b0, b1, b2.trans a2, b3.trans a3, b4, b5⟩)
      4 0 { s with p := 0 } ⟨hcode, rfl, rfl, rfl, by norm_num⟩
  have hp : s'.p = packed_byte (cell_code w) pMat i j := by
    have h44 : orFields (shifted_code (cell_code w) pMat i j) x'
        = orFields (shifted_code (cell_code w) pMat i j) 4 := by
      by_cases hx4 : x' = 4
      · rw [hx4]
      · have hge : pMat.ncol ≤ 4 * j + x' := by
          rcases hex with h | h
          · simp only [decide_eq_false_iff_not, not_and_or] at h
            omega
          · omega
        have hz : ∀ y, x' ≤ y → shifted_code (cell_code w) pMat i j y = 0 := by
          intro y hy
          unfold shifted_code
          rw [if_neg (by omega)]
        have := orFields_eq_of_zero _ x' hz (4 - x')
        rw [show x' + (4 - x') = 4 by omega] at this
        exact this.symm
    rw [h4, h44, orFields_four]
    rfl
  refine ⟨{ s' with geno := s'.geno.set j s'.p }, ?_, h1, ?_, h3⟩
  · unfold write_bfile_j
    rw [hrun]
  · show s'.geno.set j s'.p = _
    rw [h2, hp]

theorem write_bfile_i_ok (w : Width) (pMat : BigMatrix) (n : Nat) (i : Nat)
    (hi : i < pMat.nrow) (hd : ∀ c, c < pMat.ncol → InDomain w (pMat.cell c i))
    (s : Encoder) (hlen : s.geno.length = n) (hcode : s.code = write_bfile_code w) :
    ∃ s', write_bfile_i w pMat n i s = .ok s' ∧ s'.code = write_bfile_code w ∧
      s'.geno.length = n ∧
      s'.fout = s.fout ++ (List.range n).map (packed_byte (cell_code w) pMat i) := by
  obtain ⟨j', s', hrun, ⟨h1, h2, h3, h4⟩, _, hle, _, hex⟩ :=
    forLoop_ok (fun j => decide (j < n)) (write_bfile_j w pMat i)
      (fun j t => t.code = write_bfile_code w ∧ t.fout = s.fout ∧ t.geno.length = n ∧
        ∀ k, k < j → t.geno[k]? = some (packed_byte (cell_code w) pMat i k))
      (by
        intro j t hcj ⟨a1, a2, a3, a4⟩
        simp only [decide_eq_true_eq] at hcj
        obtain ⟨t', b0, b1, b2, b3⟩ := write_bfile_j_ok w pMat i hi hd j t a1
        refine ⟨t', b0, b1, b3.trans a2, by rw [b2, List.length_set]; exact a3, ?_⟩
        intro k hk
        rw [b2, List.getElem?_set]
        by_cases hjk : j = k
        · rw [if_pos hjk, if_pos (by omega), hjk]
        · rw [if_neg hjk]
          exact a4 k (by omega))
      n 0 s ⟨hcode, rfl, hlen, fun k hk => absurd hk (by omega)⟩
  have hj' : j' = n := by
    rcases hex with h | h
    · simp only [decide_eq_false_iff_not] at h
      omega
    · omega
  subst hj'
  have hgeno : s'.geno = (List.range j').map (packed_byte (cell_code w) pMat i) := by
    apply List.ext_getElem?
    intro k
    by_cases hk : k < j'
    · rw [h4 k hk, List.getElem?_map, List.getElem?_range hk]
      rfl
    · rw [List.getElem?_eq_none (by omega), List.getElem?_eq_none (by simp; omega)]
  refine ⟨{ s' with fout := s'.fout ++ s'.geno }, ?_, h1, h3, ?_⟩
  · unfold write_bfile_i
    rw [hrun]
  · show s'.fout ++ s'.geno = _
    rw [h2, hgeno]

/-- Total correctness of the byte-writing part of `write_bfile<T>` on a store whose
cells are dosages or the missing sentinel: the magic bytes, then the rows. -/
theorem write_bfile_bytes_ok (w : Width) (pMat : BigMatrix)
    (hd : ∀ c r, c < pMat.ncol → r < pMat.nrow → InDomain w (pMat.cell c r)) :
    write_bfile_bytes w pMat = .ok (magic_bytes ++
      bed_body (packed_byte (cell_code w) pMat) (bytes_per_row pMat.ncol) pMat.nrow) := by
  obtain ⟨i', s', hrun, ⟨h1, h2, h3⟩, _, hle, _, hex⟩ :=
    forLoop_ok (fun i => decide (i < pMat.nrow))
      (write_bfile_i w pMat (bytes_per_row pMat.ncol))
      (fun i t => t.code = write_bfile_code w ∧ t.geno.length = bytes_per_row pMat.ncol ∧
        t.fout = magic_bytes ++
          bed_body (packed_byte (cell_code w) pMat) (bytes_per_row pMat.ncol) i)
      (by
        intro i t hci ⟨a1, a2, a3⟩
        simp only [decide_eq_true_eq] at hci
        obtain ⟨t', b0, b1, b2, b3⟩ :=
          write_bfile_i_ok w pMat _ i hci (fun c hc => hd c i hc hci) t a2 a1
        refine ⟨t', b0, b1, b2, ?_⟩
        rw [b3, a3, List.append_assoc]
        rfl)
      pMat.nrow 0
      { code := write_bfile_code w, geno := List.replicate (bytes_per_row pMat.ncol) 0,
        p := 0, fout := magic_bytes }
      ⟨rfl, List.length_replicate _ _, by simp [bed_body]⟩
  have hi' : i' = pMat.nrow := by
    rcases hex with h | h
    · simp only [decide_eq_false_iff_not] at h
      omega
    · omega
  subst hi'
  unfold write_bfile_bytes
  simp only
  rw [hrun]
  simp only
  rw [h3]

theorem bed_body_length (byte : Nat → Nat → Nat) (n m : Nat) :
    (bed_body byte n m).length = m * n := by
  induction m with
  | zero => simp [bed_body]
  | succ m ih =>
    simp only [bed_body, List.length_append, ih, List.length_map, List.length_range]
    ring

theorem bed_body_getElem? (byte : Nat → Nat → Nat) (n m r a : Nat) (hr : r < m) (ha : a < n) :
    (bed_body byte n m)[r * n + a]? = some (byte r a) := by
  induction m with
  | zero => omega
  | succ m ih =>
    simp only [bed_body]
    by_cases hrm : r < m
    · rw [List.getElem?_append_left]
      · exact ih hrm
      · rw [bed_body_length]
        have : (r + 1) * n ≤ m * n := Nat.mul_le_mul_right n hrm
        have h3 : (r + 1) * n = r * n + n := by ring
        omega
    · have : r = m := by omega
      subst this
      rw [List.getElem?_append_right (by rw [bed_body_length]; omega), bed_body_length,
        Nat.add_sub_cancel_left, List.getElem?_map, List.getElem?_range ha]
      rfl

/-! ## Packing and unpacking of a byte -/

set_option maxRecDepth 100000 in
theorem unpack_fin : ∀ c0 c1 c2 c3 x : Fin 4,
    ((((c0.val <<< (2 * 0)) ||| (c1.val <<< (2 * 1)) ||| (c2.val <<< (2 * 2)) |||
      (c3.val <<< (2 * 3))) >>> (2 * x.val)) &&& 0x03)
      = (![c0.val, c1.val, c2.val, c3.val]) x := by
  decide

theorem field_pack (c0 c1 c2 c3 x : Nat) (h0 : c0 < 4) (h1 : c1 < 4) (h2 : c2 < 4)
    (h3 : c3 < 4) (hx : x < 4) :
    field ((c0 <<< (2 * 0)) ||| (c1 <<< (2 * 1)) ||| (c2 <<< (2 * 2)) ||| (c3 <<< (2 * 3))) x
      = if x = 0 then c0 else if x = 1 then c1 else if x = 2 then c2 else c3 := by
  have h := unpack_fin ⟨c0, h0⟩ ⟨c1, h1⟩ ⟨c2, h2⟩ ⟨c3, h3⟩ ⟨x, hx⟩
  unfold field
  interval_cases x <;> simpa using h

theorem shifted_code_eq (E : Val → Nat) (pMat : BigMatrix) (i j x : Nat) :
    shifted_code E pMat i j x
      = (if 4 * j + x < pMat.ncol then E (pMat.cell (4 * j + x) i) else 0) <<< (2 * x) := by
  unfold shifted_code
  split
  · rfl
  · rw [Nat.zero_shiftLeft]

/-- Field `c % 4` of the packed byte of group `c / 4` is the code of cell `(c, r)`. -/
theorem field_packed_byte (E : Val → Nat) (pMat : BigMatrix) (r c : Nat) (hc : c < pMat.ncol)
    (hE : ∀ c', c' < pMat.ncol → E (pMat.cell c' r) < 4) :
    field (packed_byte E pMat r (c / 4)) (c % 4) = E (pMat.cell c r) := by
  have hlt : ∀ x, (if 4 * (c / 4) + x < pMat.ncol then E (pMat.cell (4 * (c / 4) + x) r)
      else 0) < 4 := by
    intro x
    split
    · rename_i h; exact hE _ h
    · norm_num
  unfold packed_byte
  rw [shifted_code_eq, shifted_code_eq, shifted_code_eq, shifted_code_eq,
    field_pack _ _ _ _ (c % 4) (hlt 0) (hlt 1) (hlt 2) (hlt 3) (Nat.mod_lt _ (by norm_num))]
  have hcm : c % 4 = 0 ∨ c % 4 = 1 ∨ c % 4 = 2 ∨ c % 4 = 3 := by omega
  rcases hcm with h | h | h | h
  · have e : 4 * (c / 4) + 0 = c := by omega
    rw [h, e]; simp [hc]
  · have e : 4 * (c / 4) + 1 = c := by omega
    rw [h, e]; simp [hc]
  · have e : 4 * (c / 4) + 2 = c := by omega
    rw [h, e]; simp [hc]
  · have e : 4 * (c / 4) + 3 = c := by omega
    rw [h, e]; simp [hc]

/-! ## Decoding: the failing runs -/

/-- Failure rule for `forLoop`: when the iterations before `x1` succeed and keep the
invariant, the tests up to `x1` hold and iteration `x1` fails, the loop fails. -/
theorem forLoop_err {σ : Type} (cond : Nat → Bool) (body : Nat → σ → Except Failure σ)
    (Inv : Nat → σ → Prop) (e : Failure) (x1 : Nat)
    (hstep : ∀ x s, x < x1 → Inv x s → ∃ s', body x s = .ok s' ∧ Inv (x + 1) s')
    (hbad : ∀ s, Inv x1 s → body x1 s = .error e)
    (hcond : ∀ y, y ≤ x1 → cond y = true) :
    ∀ (fuel x : Nat) (s : σ), x ≤ x1 → x1 < x + fuel → Inv x s →
      forLoop cond body fuel x s = .error e := by
  intro fuel
  induction fuel with
  | zero => intro x s h1 h2; omega
  | succ k ih =>
    intro x s h1 h2 hinv
    have hc := hcond x h1
    by_cases hx : x = x1
    · subst hx
      simp only [forLoop, hc, if_true, hbad s hinv]
    · obtain ⟨s', hb, hi⟩ := hstep x s (by omega) hinv
      simp only [forLoop, hc, if_true, hb]
      exact ih (x + 1) s' (by omega) (by omega) hi

theorem block_of_offset (K bs : Nat) (hbs : 0 < bs) :
    K / bs * bs ≤ K ∧ K < (K / bs + 1) * bs := by
  have hdm := Nat.div_add_mod K bs
  have hlt := Nat.mod_lt K hbs
  have h1 : K / bs * bs = bs * (K / bs) := Nat.mul_comm _ _
  have h2 : (K / bs + 1) * bs = bs * (K / bs) + bs := by ring
  omega

theorem block_before_offset (i K bs : Nat) (hi : i < K / bs) :
    i * bs < K ∧ (i + 1) * bs ≤ K := by
  have hbs : 0 < bs := by
    rcases Nat.eq_zero_or_pos bs with h | h
    · rw [h, Nat.div_zero] at hi; omega
    · exact h
  have h1 : (i + 1) * bs ≤ K / bs * bs := Nat.mul_le_mul_right bs hi
  have h2 := (block_of_offset K bs hbs).1
  have h3 : (i + 1) * bs = i * bs + bs := by ring
  omega

theorem read_bfile_j_err (pMat : BigMatrix) (payload : List Nat)
    (bs i : Nat) (hn : 0 < bytes_per_row pMat.ncol) (j : Nat) (s : Decoder)
    (hrow : pMat.nrow ≤ (i * bs + j) / bytes_per_row pMat.ncol)
    (hj : j < bs) (hK : i * bs + j < payload.length)
    (hbuf : s.buffer = (payload.drop (i * bs)).take bs)
    (hnr : s.mat.nrow = pMat.nrow) :
    read_bfile_j (bytes_per_row pMat.ncol) pMat.ncol bs i j s = .error .undefined := by
  have hb : s.buffer[j]? = some (payload[i * bs + j]) := by
    rw [hbuf, List.getElem?_take, if_pos hj, List.getElem?_drop]
    exact List.getElem?_eq_getElem hK
  have hgrp := group_start_lt (Nat.mod_lt (i * bs + j) hn)
  unfold read_bfile_j
  rw [if_neg (by omega), hb]
  simp only [forLoop]
  rw [if_pos (by simp only [decide_eq_true_eq]; omega)]
  unfold read_bfile_x BigMatrix.set?
  rw [if_neg (by rw [hnr]; omega)]

theorem read_bfile_i_err (w : Width) (pMat : BigMatrix) (payload : List Nat)
    (bs : Nat) (hn : 0 < bytes_per_row pMat.ncol)
    (i : Nat) (s : Decoder)
    (h1 : i * bs ≤ pMat.nrow * bytes_per_row pMat.ncol)
    (h2 : pMat.nrow * bytes_per_row pMat.ncol < (i + 1) * bs)
    (h3 : pMat.nrow * bytes_per_row pMat.ncol < payload.length)
    (hfin : s.fin = payload.drop (i * bs))
    (hinv : DecInv w pMat payload (i * bs) 0 s) :
    read_bfile_i (bytes_per_row pMat.ncol) pMat.ncol bs payload.length i s
      = .error .undefined := by
  have hsucc : (i + 1) * bs = i * bs + bs := by ring
  have hdiv : (pMat.nrow * bytes_per_row pMat.ncol) / bytes_per_row pMat.ncol = pMat.nrow :=
    Nat.mul_div_cancel _ hn
  unfold read_bfile_i
  apply forLoop_err (fun j => decide (j < bs ∧ i * bs + j < payload.length))
    (read_bfile_j (bytes_per_row pMat.ncol) pMat.ncol bs i)
    (fun j t => DecInv w pMat payload (i * bs + j) 0 t ∧
      t.fin = payload.drop ((i + 1) * bs) ∧ t.buffer = (payload.drop (i * bs)).take bs)
    .undefined (pMat.nrow * bytes_per_row pMat.ncol - i * bs)
  · intro j t hj ⟨hi1, hi2, hi3⟩
    have hrow : (i * bs + j) / bytes_per_row pMat.ncol < pMat.nrow :=
      Nat.div_lt_of_lt_mul (by rw [Nat.mul_comm _ pMat.nrow]; omega)
    obtain ⟨t', a1, a2, a3, a4⟩ := read_bfile_j_ok w pMat payload bs i hn j t hrow
      (by simp only [decide_eq_true_eq]; omega) hi3 hi1
    exact ⟨t', a1, a2, a3.trans hi2, a4.trans hi3⟩
  · intro t ⟨hi1, _, hi3⟩
    apply read_bfile_j_err pMat payload bs i hn _ t _ (by omega) (by omega) hi3 hi1.2.1
    rw [show i * bs + (pMat.nrow * bytes_per_row pMat.ncol - i * bs)
      = pMat.nrow * bytes_per_row pMat.ncol by omega, hdiv]
  · intro y hy
    simp only [decide_eq_true_eq]
    omega
  · omega
  · omega
  · refine ⟨⟨hinv.1, hinv.2.1, hinv.2.2.1, hinv.2.2.2.1, hinv.2.2.2.2.1, hinv.2.2.2.2.2⟩, ?_, ?_⟩
    · simp only [hfin, List.drop_drop]
      congr 1; ring
    · simp only [hfin]

/-- A payload with more rows than the store makes the decoding write outside the store. -/
theorem read_bfile_decode_err_rows (w : Width) (pMat : BigMatrix) (hdr payload : List Nat)
    (maxLine : Int) (hhdr : hdr.length = 3) (hcol : 1 ≤ pMat.ncol)
    (hbig : pMat.nrow * bytes_per_row pMat.ncol < payload.length) :
    read_bfile_decode w (hdr ++ payload) pMat maxLine = .error .undefined := by
  have hn : 0 < bytes_per_row pMat.ncol := bytes_per_row_pos hcol
  have hlen : (hdr ++ payload).length = payload.length + 3 := by
    rw [List.length_append, hhdr, Nat.add_comm]
  have hdrop : (hdr ++ payload).drop 3 = payload := List.drop_left' hhdr
  set n := bytes_per_row pMat.ncol with hndef
  set bs : Nat := if maxLine > 0 then maxLine.toNat * n else payload.length with hbsdef
  have hbs : 0 < bs := by
    rw [hbsdef]
    split
    · rename_i hm
      have : 0 < maxLine.toNat := by omega
      exact Nat.mul_pos this hn
    · omega
  set nb : Nat := if payload.length % bs ≠ 0 then payload.length / bs + 1
    else payload.length / bs with hnbdef
  obtain ⟨hq1, hq2⟩ := block_of_offset (pMat.nrow * n) bs hbs
  have hi0 : pMat.nrow * n / bs < nb := by
    by_contra hcon
    have hle : nb * bs ≤ pMat.nrow * n / bs * bs := Nat.mul_le_mul_right bs (by omega)
    have hcov : payload.length ≤ nb * bs := blocks_cover hbs
    exact absurd (le_trans hcov (le_trans hle hq1)) (not_le.mpr hbig)
  have hrun : forLoop (fun i => decide (i < nb))
      (read_bfile_i n pMat.ncol bs payload.length) nb 0
      { fin := payload, buffer := (hdr ++ payload).take 3, code := read_bfile_code w,
        mat := pMat } = .error .undefined := by
    apply forLoop_err (fun i => decide (i < nb))
      (read_bfile_i n pMat.ncol bs payload.length)
      (fun i t => DecInv w pMat payload (i * bs) 0 t ∧ t.fin = payload.drop (i * bs))
      .undefined (pMat.nrow * n / bs)
    · intro i t hi ⟨a1, a2⟩
      obtain ⟨hb1, hb2⟩ := block_before_offset i (pMat.nrow * n) bs hi
      obtain ⟨t', b1, b2, b3⟩ := read_bfile_i_ok w pMat payload bs hn i t
        (lt_trans hb1 hbig) (le_trans (Nat.min_le_left _ _) hb2) a2 a1
      refine ⟨t', b1, ?_, b3⟩
      rw [Nat.min_eq_left (le_of_lt (lt_of_le_of_lt hb2 hbig))] at b2
      exact b2
    · intro t ⟨a1, a2⟩
      exact read_bfile_i_err w pMat payload bs hn _ t hq1 hq2 hbig a2 a1
    · intro y hy
      simp only [decide_eq_true_eq]
      exact lt_of_le_of_lt hy hi0
    · exact Nat.zero_le _
    · rw [Nat.zero_add]; exact hi0
    · refine ⟨⟨rfl, rfl, rfl, rfl, ?_, ?_⟩, by simp⟩
      · intro c r hw
        exfalso
        obtain ⟨_, h | ⟨_, h⟩⟩ := hw <;> simp at h
      · intro c r _
        rfl
  unfold read_bfile_decode
  simp only [hlen, hdrop, Nat.add_sub_cancel]
  rw [if_neg (by omega)]
  simp only [← hndef]
  simp only [← hbsdef]
  simp only [← hnbdef]
  rw [if_neg (by omega), hrun]

/-- On a file shorter than its header with `maxLine <= 0`, `buffer_size` is the negative
`length - 3` and `n_block` is 1: the block is entered. -/
theorem short_file_one_block (L : Nat) (h : L < 3) :
    ¬ (Int.tdiv ((L : Int) - 3) ((L : Int) - 3)
      + (if Int.tmod ((L : Int) - 3) ((L : Int) - 3) ≠ 0 then 1 else 0) ≤ 0) := by
  interval_cases L <;> decide

/-- A store without columns makes the decoding divide by zero, or enter a block of
negative size. -/
theorem read_bfile_decode_err_nocol (w : Width) (pMat : BigMatrix) (bed : List Nat)
    (maxLine : Int) (hcol : pMat.ncol = 0) :
    read_bfile_decode w bed pMat maxLine = .error .undefined := by
  have hn : bytes_per_row pMat.ncol = 0 := by rw [bytes_per_row_eq, hcol]
  unfold read_bfile_decode
  simp only [hn, Nat.mul_zero]
  by_cases h3 : bed.length < 3
  · rw [if_pos h3]
    by_cases hm : maxLine > 0
    · simp only [if_pos hm, Nat.cast_zero, mul_zero, if_true]
    · simp only [if_neg hm]
      rw [if_neg (by omega), if_neg (short_file_one_block bed.length h3)]
  · rw [if_neg h3]
    by_cases hm : maxLine > 0
    · simp only [if_pos hm, if_true]
    · simp only [if_neg hm]
      by_cases hL : bed.length - 3 = 0
      · rw [if_pos hL]
      · rw [if_neg hL]
        obtain ⟨k, hk⟩ : ∃ k, bed.length - 3 = k + 1 := ⟨bed.length - 3 - 1, by omega⟩
        rw [hk]
        have hmod : (k + 1) % (k + 1) = 0 := Nat.mod_self _
        have hdiv : (k + 1) / (k + 1) = 1 := Nat.div_self (by omega)
        simp only [hmod, hdiv, ne_eq, not_true_eq_false, if_false, forLoop, read_bfile_i,
          read_bfile_j]
        simp

/-- An empty payload with `maxLine <= 0` makes the block count divide by zero; a file
shorter than its header with `maxLine <= 0` makes the block size negative. -/
theorem read_bfile_decode_err_empty (w : Width) (pMat : BigMatrix) (bed : List Nat)
    (maxLine : Int) (hlen : bed.length ≤ 3) (hm : maxLine ≤ 0) :
    read_bfile_decode w bed pMat maxLine = .error .undefined := by
  unfold read_bfile_decode
  simp only
  have hm' : ¬ maxLine > 0 := by omega
  by_cases h3 : bed.length < 3
  · rw [if_pos h3]
    simp only [if_neg hm']
    rw [if_neg (by omega), if_neg (short_file_one_block bed.length h3)]
  · have h0 : bed.length - 3 = 0 := by omega
    simp only [if_neg h3, if_neg hm', h0, if_true]

/-! ## Layout and round trip for the integer widths -/

theorem packed_byte_congr (E1 E2 : Val → Nat) (pMat : BigMatrix) (r j : Nat)
    (h : ∀ c, c < pMat.ncol → E1 (pMat.cell c r) = E2 (pMat.cell c r)) :
    packed_byte E1 pMat r j = packed_byte E2 pMat r j := by
  have hs : ∀ x, shifted_code E1 pMat r j x = shifted_code E2 pMat r j x := by
    intro x
    unfold shifted_code
    split
    · rename_i hx; rw [h _ hx]
    · rfl
  unfold packed_byte
  rw [hs 0, hs 1, hs 2, hs 3]

theorem decode_cell_code (w : Width) (hw : w ≠ .double) (v : Val) (hd : InDomain w v) :
    decode_table w (cell_code w v) = v := by
  rcases hd with h | h | h | h <;> subst h <;> cases w <;> first | rfl | exact absurd rfl hw

/-- Layout of the bytes written by `write_bfile<T>` for `char`, `short` and `int`
stores with cells in {0, 1, 2, missing}: the magic header, then `nrow` rows of
`ceil(ncol/4)` bytes, each byte the OR of its individuals' codes under the
specification's mapping, shifted to their bit pairs. -/
theorem write_bfile_layout (w : Width) (hw : w ≠ .double) (pMat : BigMatrix)
    (hd : ∀ c r, c < pMat.ncol → r < pMat.nrow → InDomain w (pMat.cell c r)) :
    ∃ bytes, write_bfile_bytes w pMat = .ok bytes ∧ bytes.take 3 = [0x6c, 0x1b, 0x01] ∧
      bytes.length = 3 + pMat.nrow * bytes_per_row pMat.ncol ∧
      ∀ r j, r < pMat.nrow → j < bytes_per_row pMat.ncol →
        bytes[3 + r * bytes_per_row pMat.ncol + j]?
          = some (packed_byte (encode_table w) pMat r j) := by
  refine ⟨_, write_bfile_bytes_ok w pMat hd, rfl, ?_, ?_⟩
  · rw [List.length_append, bed_body_length]
    rfl
  · intro r j hr hj
    rw [List.getElem?_append_right (by simp [magic_bytes]; omega)]
    have : 3 + r * bytes_per_row pMat.ncol + j - magic_bytes.length
        = r * bytes_per_row pMat.ncol + j := by
      simp [magic_bytes]; omega
    rw [this, bed_body_getElem? _ _ _ _ _ hr hj]
    congr 1
    apply packed_byte_congr
    intro c hc
    exact cell_code_eq_encode_table w hw _ (hd c r hc hr)

/-- Round trip for `char`, `short` and `int` stores with cells in {0, 1, 2, missing}:
the bytes written by `write_bfile<T>`, decoded by `read_bfile<T>` into a store of the
same shape, give back every cell. -/
theorem bfile_round_trip (w : Width) (hw : w ≠ .double) (pMat fresh : BigMatrix)
    (maxLine : Int) (hm : 1 ≤ pMat.nrow) (hn : 1 ≤ pMat.ncol)
    (hd : ∀ c r, c < pMat.ncol → r < pMat.nrow → InDomain w (pMat.cell c r))
    (hr : fresh.nrow = pMat.nrow) (hc : fresh.ncol = pMat.ncol) :
    ∃ bytes s', write_bfile_bytes w pMat = .ok bytes ∧
      read_bfile_decode w bytes fresh maxLine = .ok s' ∧
      ∀ c r, c < pMat.ncol → r < pMat.nrow → s'.cell c r = pMat.cell c r := by
  have hpos : 0 < bytes_per_row pMat.ncol := bytes_per_row_pos hn
  have hlen := bed_body_length (packed_byte (cell_code w) pMat) (bytes_per_row pMat.ncol)
    pMat.nrow
  obtain ⟨s', hrun, _, _, _, hcells, _⟩ :=
    read_bfile_decode_ok w fresh magic_bytes
      (bed_body (packed_byte (cell_code w) pMat) (bytes_per_row pMat.ncol) pMat.nrow)
      maxLine rfl (by rw [hc]; exact hn) (by rw [hlen, hr, hc])
      (Or.inl (by
        intro h
        rw [h] at hlen
        have : 0 < pMat.nrow * bytes_per_row pMat.ncol := Nat.mul_pos hm hpos
        simp at hlen
        omega))
  refine ⟨_, s', write_bfile_bytes_ok w pMat hd, hrun, ?_⟩
  intro c r hcc hrr
  have ha : c / 4 < bytes_per_row pMat.ncol := div4_lt_bytes_per_row hcc
  have hidx : r * bytes_per_row pMat.ncol + c / 4 < pMat.nrow * bytes_per_row pMat.ncol := by
    have h1 : (r + 1) * bytes_per_row pMat.ncol ≤ pMat.nrow * bytes_per_row pMat.ncol :=
      Nat.mul_le_mul_right _ hrr
    have h2 : (r + 1) * bytes_per_row pMat.ncol
        = r * bytes_per_row pMat.ncol + bytes_per_row pMat.ncol := by ring
    omega
  rw [hc] at hcells
  rw [hcells c r hcc (by rw [hlen]; exact hidx), List.getD_eq_getElem?_getD,
    bed_body_getElem? _ _ _ _ _ hrr ha]
  show decode_table w (field (packed_byte (cell_code w) pMat r (c / 4)) (c % 4)) = _
  rw [field_packed_byte _ _ _ _ hcc (fun c' hc' => cell_code_lt w _ (hd c' r hc' hrr))]
  exact decode_cell_code w hw _ (hd c r hcc hrr)

/-! ## Claims on the BED codec -/

/-- C1, at the failing input: a 1 x 1 `double` store (type tag 8) holding dosage 0 is
written by `write_bfile` as the byte 1 (code 1, missing), because the assignment
`code[NA_REAL] = 1` lands on the entry of key 0; `read_bfile` decodes that file into a
fresh 1 x 1 `double` store as NaN (missing), not as 0. -/
theorem bfile_round_trip_double_zero :
    write_bfile (const_store 8 1 1 (.num 0)) test_bed
      = .ok (test_bed, [0x6c, 0x1b, 0x01, 1]) ∧
    cell_of (read_bfile test_bed [0x6c, 0x1b, 0x01, 1] (const_store 8 1 1 (.num 2)) (-1)) 0 0
      = some .nan ∧
    (const_store 8 1 1 (.num 0)).cell 0 0 = .num 0 := by
  refine ⟨rfl, rfl, rfl⟩

/-- C3, at the failing input: for a 1 x 1 `double` store holding dosage 0,
`write_bfile<double>` writes the byte 1 after the magic header, while the layout of the
claim, with dosage 0 encoded as code 3, gives the byte 3. -/
theorem write_bfile_double_zero_byte :
    write_bfile_bytes .double (const_store 8 1 1 (.num 0)) = .ok [0x6c, 0x1b, 0x01, 1] ∧
    packed_byte (encode_table .double) (const_store 8 1 1 (.num 0)) 0 0 = 3 ∧
    write_bfile_code .double = [(.num 0, 1), (.num 1, 2), (.num 2, 0)] := by
  refine ⟨rfl, rfl, rfl⟩

/-- C4: block-partitioning invariance of `read_bfile<T>`. For every store and every file
with a 3-byte header and a non-empty payload, decoding has the same outcome for any two
values of `maxLine`, in particular for `maxLine > 0` (blocks of `maxLine` rows) and
`maxLine0 <= 0` (one block spanning the payload); when the store has a column and room
for the rows of the payload, that outcome is a returned store. -/
theorem read_bfile_block_invariance (w : Width) (pMat : BigMatrix) (hdr payload : List Nat)
    (maxLine maxLine0 : Int) (hhdr : hdr.length = 3) (hpay : payload ≠ []) :
    read_bfile_decode w (hdr ++ payload) pMat maxLine
      = read_bfile_decode w (hdr ++ payload) pMat maxLine0 ∧
    (1 ≤ pMat.ncol → payload.length ≤ pMat.nrow * bytes_per_row pMat.ncol →
      ∃ s', read_bfile_decode w (hdr ++ payload) pMat maxLine0 = .ok s') := by
  constructor
  · by_cases hcol : 1 ≤ pMat.ncol
    · by_cases hfit : payload.length ≤ pMat.nrow * bytes_per_row pMat.ncol
      · obtain ⟨s1, h1, d1⟩ :=
          read_bfile_decode_ok w pMat hdr payload maxLine hhdr hcol hfit (Or.inl hpay)
        obtain ⟨s2, h2, d2⟩ :=
          read_bfile_decode_ok w pMat hdr payload maxLine0 hhdr hcol hfit (Or.inl hpay)
        rw [h1, h2, Decoded_unique d1 d2]
      · rw [read_bfile_decode_err_rows w pMat hdr payload maxLine hhdr hcol (by omega),
          read_bfile_decode_err_rows w pMat hdr payload maxLine0 hhdr hcol (by omega)]
    · rw [read_bfile_decode_err_nocol w pMat _ maxLine (by omega),
        read_bfile_decode_err_nocol w pMat _ maxLine0 (by omega)]
  · intro hcol hfit
    obtain ⟨s2, h2, _⟩ :=
      read_bfile_decode_ok w pMat hdr payload maxLine0 hhdr hcol hfit (Or.inl hpay)
    exact ⟨s2, h2⟩

/-- C4, at a concrete input: 2 rows of 2 bytes decoded in blocks of one row and in one
block give the same store. -/
theorem read_bfile_block_invariance_witness :
    read_bfile_decode .char ([0x6c, 0x1b, 0x01] ++ [27, 2, 240, 1])
        (const_store 1 2 5 (.num 9)) 1
      = read_bfile_decode .char ([0x6c, 0x1b, 0x01] ++ [27, 2, 240, 1])
        (const_store 1 2 5 (.num 9)) (-1) ∧
    (1 ≤ (const_store 1 2 5 (.num 9)).ncol →
      [27, 2, 240, 1].length
        ≤ (const_store 1 2 5 (.num 9)).nrow * bytes_per_row (const_store 1 2 5 (.num 9)).ncol →
      ∃ s', read_bfile_decode .char ([0x6c, 0x1b, 0x01] ++ [27, 2, 240, 1])
        (const_store 1 2 5 (.num 9)) (-1) = .ok s') :=
  read_bfile_block_invariance .char (const_store 1 2 5 (.num 9)) [0x6c, 0x1b, 0x01]
    [27, 2, 240, 1] 1 (-1) rfl (by decide)

/-! ## Claims on the call decoders -/

/-- C5, at the failing input: `vcf_parser_genotype` on a `short` store (type tag 2) and
a data line whose second call is `./.` leaves 0 in the cell of that individual, not
`NA_SHORT`: the decoder returns `NA_SHORT` (-32768), which is stored in the
`vector<char> markers` and so narrowed to 8 bits, that is to 0. `hapmap_parser_genotype`
does the same with the call `NN`. The first call is stored as its dosage 1. -/
theorem genotype_pass_short_missing :
    cell_of (vcf_parser_genotype vcf_sample (const_store 2 1 2 (.num 7))) 1 0
      = some (.num 0) ∧
    cell_of (vcf_parser_genotype vcf_sample (const_store 2 1 2 (.num 7))) 0 0
      = some (.num 1) ∧
    vcf_marker_parser_T .short ['.', '/', '.'] = .ok (NA .short) ∧
    cell_of (hapmap_parser_genotype hapmap_sample (const_store 2 1 2 (.num 7))) 1 0
      = some (.num 0) ∧
    hapmap_marker_parser_T .short ['N', 'N'] 'A' = NA .short ∧
    NA .short = .num (-32768) := by
  refine ⟨by decide, by decide, rfl, by decide, rfl, rfl⟩

/-- C6: the VCF call decoder on well-formed tokens. For a three-character token `a s b`
with `a`, `b` among `.`, `0`, `1` and `s` one of `/`, `|`, `vcf_marker_parser<T>`
returns the missing sentinel if `a` or `b` is `.`, and otherwise the integer `a + b`. -/
theorem vcf_call_decoder_wellformed (w : Width) (a s b : Char)
    (ha : a = '.' ∨ a = '0' ∨ a = '1') (hs : s = '/' ∨ s = '|')
    (hb : b = '.' ∨ b = '0' ∨ b = '1') :
    vcf_marker_parser_T w [a, s, b]
      = .ok (if a = '.' ∨ b = '.' then NA w else .num (digit a + digit b)) := by
  rcases ha with h | h | h <;> rcases hb with h' | h' | h' <;> rcases hs with h'' | h'' <;>
    subst h h' h'' <;> cases w <;> rfl

/-- C6, at the tokens of the specification: `0/0` gives 0, `0/1` gives 1, `1/1` gives 2,
`./.` gives the sentinel and `0|1` gives 1 (here for `char`). -/
theorem vcf_call_decoder_wellformed_witness :
    vcf_marker_parser_T .char ['0', '/', '0'] = .ok (.num 0) ∧
    vcf_marker_parser_T .char ['0', '/', '1'] = .ok (.num 1) ∧
    vcf_marker_parser_T .char ['1', '/', '1'] = .ok (.num 2) ∧
    vcf_marker_parser_T .char ['.', '/', '.'] = .ok (NA .char) ∧
    vcf_marker_parser_T .char ['0', '|', '1'] = .ok (.num 1) :=
  ⟨vcf_call_decoder_wellformed .char '0' '/' '0' (by decide) (by decide) (by decide),
   vcf_call_decoder_wellformed .char '0' '/' '1' (by decide) (by decide) (by decide),
   vcf_call_decoder_wellformed .char '1' '/' '1' (by decide) (by decide) (by decide),
   vcf_call_decoder_wellformed .char '.' '/' '.' (by decide) (by decide) (by decide),
   vcf_call_decoder_wellformed .char '0' '|' '1' (by decide) (by decide) (by decide)⟩

/-- C7 as stated fails: the token `0/1:35` has length 6, so it is malformed, and
`vcf_marker_parser<char>` returns the dosage 1 for it; the token `A/B` has length 3 and
no digit at positions 0 and 2, and the decoder returns 35 for it. Neither result is the
missing sentinel. -/
theorem vcf_call_decoder_malformed_not_missing :
    ['0', '/', '1', ':', '3', '5'].length ≠ 3 ∧
    vcf_marker_parser_T .char ['0', '/', '1', ':', '3', '5'] = .ok (.num 1) ∧
    vcf_marker_parser_T .char ['A', '/', 'B'] = .ok (.num 35) ∧
    NA .char ≠ .num 1 ∧ NA .char ≠ .num 35 := by
  refine ⟨by decide, rfl, rfl, by decide, by decide⟩

/-- C7, amended: on every token of at least two characters `vcf_marker_parser<T>`
returns without error; the result is the missing sentinel when the character at
position 0 or at position 2 is `.` (position 2 of a two-character token being the
terminating null), and otherwise it is `(m[0] - '0') + (m[2] - '0')` converted to `T`,
whatever the length of the token and whether or not those characters are digits. -/
theorem vcf_call_decoder_positions (w : Width) (m : List Char) (hlen : 2 ≤ m.length) :
    vcf_marker_parser_T w m
      = .ok (if m.getD 0 (Char.ofNat 0) = '.' ∨ m.getD 2 (Char.ofNat 0) = '.' then NA w
          else castInt w (char_val (m.getD 0 (Char.ofNat 0)) - char_val '0'
            + char_val (m.getD 2 (Char.ofNat 0)) - char_val '0')) := by
  match m, hlen with
  | [a, b], _ =>
    by_cases ha : a = '.'
    · simp [vcf_marker_parser_T, string_at, ha]
    · have h0 : Char.ofNat 0 ≠ '.' := by decide
      simp [vcf_marker_parser_T, string_at, ha, h0]
  | a :: b :: c :: rest, _ =>
    by_cases ha : a = '.'
    · simp [vcf_marker_parser_T, string_at, ha]
    · by_cases hc : c = '.'
      · simp [vcf_marker_parser_T, string_at, ha, hc]
      · simp [vcf_marker_parser_T, string_at, ha, hc]

/-- C7 amended, at the malformed token `0/1:35`. -/
theorem vcf_call_decoder_positions_witness :
    2 ≤ ['0', '/', '1', ':', '3', '5'].length ∧
    vcf_marker_parser_T .char ['0', '/', '1', ':', '3', '5']
      = .ok (if ['0', '/', '1', ':', '3', '5'].getD 0 (Char.ofNat 0) = '.' ∨
            ['0', '/', '1', ':', '3', '5'].getD 2 (Char.ofNat 0) = '.' then NA .char
          else castInt .char
            (char_val (['0', '/', '1', ':', '3', '5'].getD 0 (Char.ofNat 0)) - char_val '0'
            + char_val (['0', '/', '1', ':', '3', '5'].getD 2 (Char.ofNat 0)) - char_val '0')) :=
  ⟨by decide, vcf_call_decoder_positions .char ['0', '/', '1', ':', '3', '5'] (by decide)⟩

/-- C8: the HapMap call decoder. For every major allele `M` and token `t`,
`hapmap_marker_parser<T>` returns the missing sentinel if `t` does not have length 2 or
one of its characters is not among `A`, `T`, `G`, `C`, and otherwise the number of
characters of `t` that differ from `M`; with `M = 'A'`, `AA` gives 0, `AG` gives 1, `GG`
gives 2 and `NN` gives the sentinel. -/
theorem hapmap_call_decoder (w : Width) (M : Char) (t : List Char) :
    hapmap_marker_parser_T w t M
      = (if t.length ≠ 2 ∨ (∃ c ∈ t, c ∉ ['A', 'T', 'G', 'C']) then NA w
          else .num ((t.filter (fun c => c ≠ M)).length)) ∧
    hapmap_marker_parser_T w ['A', 'A'] 'A' = .num 0 ∧
    hapmap_marker_parser_T w ['A', 'G'] 'A' = .num 1 ∧
    hapmap_marker_parser_T w ['G', 'G'] 'A' = .num 2 ∧
    hapmap_marker_parser_T w ['N', 'N'] 'A' = NA w := by
  refine ⟨?_, by cases w <;> rfl, by cases w <;> rfl, by cases w <;> rfl, by cases w <;> rfl⟩
  match t with
  | [] => simp [hapmap_marker_parser_T]
  | [a] => simp [hapmap_marker_parser_T]
  | a :: b :: c :: rest => simp [hapmap_marker_parser_T]
  | [a, b] =>
    have hcast : ∀ k : Int, 0 ≤ k → k ≤ 2 → castInt w k = .num k := by
      intro k h0 h2
      have : k = 0 ∨ k = 1 ∨ k = 2 := by omega
      rcases this with h | h | h <;> subst h <;> cases w <;> rfl
    by_cases hbad : (a ≠ 'A' ∧ a ≠ 'T' ∧ a ≠ 'G' ∧ a ≠ 'C') ∨
        (b ≠ 'A' ∧ b ≠ 'T' ∧ b ≠ 'G' ∧ b ≠ 'C')
    · have hex : ∃ c ∈ [a, b], c ∉ ['A', 'T', 'G', 'C'] := by
        rcases hbad with h | h
        · exact ⟨a, by simp, by simp; tauto⟩
        · exact ⟨b, by simp, by simp; tauto⟩
      rw [if_pos (Or.inr hex)]
      unfold hapmap_marker_parser_T
      rw [if_pos (Or.inr (by simpa using hbad))]
    · have hex : ¬ (([a, b].length ≠ 2) ∨ ∃ c ∈ [a, b], c ∉ ['A', 'T', 'G', 'C']) := by
        simp only [List.length_cons, List.length_nil, ne_eq, not_true_eq_false, false_or]
        rintro ⟨c, hc, hn⟩
        simp only [List.mem_cons, List.mem_singleton, List.not_mem_nil, or_false] at hc hn
        apply hbad
        rcases hc with h | h
        · left; subst h; tauto
        · right; subst h; tauto
      rw [if_neg hex]
      unfold hapmap_marker_parser_T
      rw [if_neg (by simpa using hbad)]
      simp only [List.getD_cons_zero, List.getD_cons_succ]
      by_cases h1 : a = M <;> by_cases h2 : b = M <;>
        simp [h1, h2, List.filter, hcast]

/-! ## Lines and fields -/

theorem skip_header_found (pre : List Char) (before : List (List Char)) (header : List Char)
    (rest : List (List Char)) (hbefore : ∀ l ∈ before, ¬ pre <+: l) (hheader : pre <+: header) :
    skip_header pre (before ++ header :: rest) = some (header, rest) := by
  induction before with
  | nil =>
    simp only [List.nil_append, skip_header]
    rw [if_pos (List.isPrefixOf_iff_prefix.mpr hheader)]
  | cons l ls ih =>
    simp only [List.cons_append, skip_header]
    have h1 : pre.isPrefixOf l = false := by
      cases hb : pre.isPrefixOf l with
      | false => rfl
      | true =>
        exact absurd (List.isPrefixOf_iff_prefix.mp hb) (hbefore l (List.mem_cons_self _ _))
    rw [h1]
    simp only [Bool.false_eq_true, if_false]
    exact ih (fun l' hl' => hbefore l' (List.mem_cons_of_mem _ hl'))

theorem split_ne_nil (d : List Char) (s : List Char) : split d s ≠ [] := by
  cases s with
  | nil => simp [split]
  | cons c cs =>
    unfold split
    split
    · simp
    · split <;> simp

/-- The number of fields is the number of delimiters plus one. -/
theorem split_length (d : List Char) (s : List Char) :
    (split d s).length = (s.filter (fun c => decide (c ∈ d))).length + 1 := by
  induction s with
  | nil => simp [split]
  | cons c cs ih =>
    unfold split
    by_cases hc : c ∈ d
    · rw [if_pos hc]
      simp only [List.length_cons, ih, List.filter_cons, hc, decide_True, if_true]
    · rw [if_neg hc]
      have hne := split_ne_nil d cs
      cases hs : split d cs with
      | nil => exact absurd hs hne
      | cons f fs =>
        rw [hs] at ih
        simp only [List.length_cons, List.filter_cons, hc, decide_False] at ih ⊢
        simpa using ih

/-- A text cut by `split` is its first field, alone or followed by a delimiter and the
text of the other fields. -/
theorem split_decompose (d : List Char) (s : List Char) (f : List Char)
    (fs : List (List Char)) (h : split d s = f :: fs) :
    (∀ c ∈ f, c ∉ d) ∧
    ((fs = [] ∧ s = f) ∨ (∃ c s', c ∈ d ∧ s = f ++ c :: s' ∧ split d s' = fs)) := by
  induction s generalizing f fs with
  | nil =>
    simp only [split, List.cons.injEq] at h
    obtain ⟨h1, h2⟩ := h
    subst h1 h2
    exact ⟨by simp, Or.inl ⟨rfl, rfl⟩⟩
  | cons c cs ih =>
    unfold split at h
    by_cases hc : c ∈ d
    · rw [if_pos hc] at h
      simp only [List.cons.injEq] at h
      obtain ⟨h1, h2⟩ := h
      subst h1
      exact ⟨by simp, Or.inr ⟨c, cs, hc, rfl, h2⟩⟩
    · rw [if_neg hc] at h
      have hne := split_ne_nil d cs
      cases hs : split d cs with
      | nil => exact absurd hs hne
      | cons g gs =>
        rw [hs] at h
        simp only [List.cons.injEq] at h
        obtain ⟨h1, h2⟩ := h
        subst h1 h2
        obtain ⟨hg, hrest⟩ := ih g gs hs
        refine ⟨?_, ?_⟩
        · intro x hx
          rcases List.mem_cons.mp hx with hx | hx
          · subst hx; exact hc
          · exact hg x hx
        · rcases hrest with ⟨h1, h2⟩ | ⟨c', s', h1, h2, h3⟩
          · exact Or.inl ⟨h1, by rw [h2]⟩
          · exact Or.inr ⟨c', s', h1, by rw [h2]; rfl, h3⟩

theorem split_no_delim (d : List Char) (f : List Char) (hf : ∀ c ∈ f, c ∉ d) :
    split d f = [f] := by
  induction f with
  | nil => rfl
  | cons c cs ih =>
    unfold split
    rw [if_neg (hf c (List.mem_cons_self _ _)),
      ih (fun x hx => hf x (List.mem_cons_of_mem _ hx))]

theorem split_append_delim (d : List Char) (f : List Char) (c : Char) (s : List Char)
    (hf : ∀ x ∈ f, x ∉ d) (hc : c ∈ d) : split d (f ++ c :: s) = f :: split d s := by
  induction f with
  | nil =>
    simp only [List.nil_append]
    rw [split, if_pos hc]
  | cons x xs ih =>
    simp only [List.cons_append]
    rw [split, if_neg (hf x (List.mem_cons_self _ _)),
      ih (fun y hy => hf y (List.mem_cons_of_mem _ hy))]

/-- Cutting a text to its first `N` characters keeps the leading fields that lie within
those characters. -/
theorem split_take (d : List Char) (fs : List (List Char)) :
    ∀ (s : List Char) (N : Nat) (rest : List (List Char)), fs ≠ [] →
      split d s = fs ++ rest → span fs ≤ N →
      ∃ rest', split d (s.take N) = fs ++ rest' := by
  induction fs with
  | nil => intro s N rest h; exact absurd rfl h
  | cons f gs ih =>
    intro s N rest _ hs hN
    obtain ⟨hf, hcase⟩ := split_decompose d s f (gs ++ rest) hs
    cases gs with
    | nil =>
      simp only [span] at hN
      rcases hcase with ⟨_, h2⟩ | ⟨c, s', h1, h2, _⟩
      · subst h2
        rw [List.take_of_length_le hN, split_no_delim d _ hf]
        exact ⟨[], rfl⟩
      · subst h2
        by_cases hlt : f.length < N
        · obtain ⟨k, hk⟩ : ∃ k, N = f.length + (k + 1) := ⟨N - f.length - 1, by omega⟩
          rw [hk, List.take_append, List.take_succ_cons, split_append_delim d f c _ hf h1]
          exact ⟨_, rfl⟩
        · have : N = f.length := by omega
          rw [this, List.take_left, split_no_delim d _ hf]
          exact ⟨[], rfl⟩
    | cons g gs' =>
      simp only [span] at hN
      rcases hcase with ⟨h1, _⟩ | ⟨c, s', h1, h2, h3⟩
      · simp at h1
      · subst h2
        obtain ⟨k, hk⟩ : ∃ k, N = f.length + (k + 1) := ⟨N - f.length - 1, by omega⟩
        obtain ⟨rest', hr⟩ := ih s' k rest (by simp) h3 (by omega)
        rw [hk, List.take_append, List.take_succ_cons, split_append_delim d f c _ hf h1, hr]
        exact ⟨rest', rfl⟩

theorem map_lines_ok (record : List Char → Except Failure (List Char))
    (g : List Char → List Char) (rest : List (List Char))
    (h : ∀ l ∈ rest, record l = .ok (g l)) :
    ∀ (map : List (List Char)) (m : Nat),
      map_lines record rest map m = (map ++ rest.map g, .ok (m + rest.length)) := by
  induction rest with
  | nil => intro map m; simp [map_lines]
  | cons l ls ih =>
    intro map m
    rw [map_lines, h l (List.mem_cons_self _ _)]
    simp only
    rw [ih (fun l' hl' => h l' (List.mem_cons_of_mem _ hl'))]
    simp only [List.append_assoc, List.singleton_append, List.map_cons, List.length_cons]
    congr 2
    omega

theorem map_record_ok_of_fields (fmt : Format) (line : List Char)
    (h : fmt.map_fields ≤ (split tab (line.take MAP_INFO_N)).length) :
    ∃ r, map_record fmt line = .ok r := by
  cases fmt with
  | vcf =>
    simp only [map_record, vcf_map_record]
    match hs : split tab (line.take MAP_INFO_N), h with
    | l0 :: l1 :: l2 :: _, _ => exact ⟨_, rfl⟩
    | [], h => simp [Format.map_fields] at h
    | [_], h => simp [Format.map_fields] at h
    | [_, _], h => simp [Format.map_fields] at h
  | hapmap =>
    simp only [map_record, hapmap_map_record]
    match hs : split tab (line.take MAP_INFO_N), h with
    | l0 :: l1 :: l2 :: l3 :: _, _ => exact ⟨_, rfl⟩
    | [], h => simp [Format.map_fields] at h
    | [_], h => simp [Format.map_fields] at h
    | [_, _], h => simp [Format.map_fields] at h
    | [_, _, _], h => simp [Format.map_fields] at h

/-- What a map pass leaves behind on a text with a header line of enough columns whose
data lines all give a record. -/
theorem parser_map_run (fmt : Format) (file : List Char) (before : List (List Char))
    (header : List Char) (rest : List (List Char)) (g : List Char → List Char)
    (hfile : getlines file = before ++ header :: rest)
    (hbefore : ∀ l ∈ before, ¬ fmt.head <+: l) (hheader : fmt.head <+: header)
    (hcols : fmt.meta_columns ≤ (split tab header).length)
    (hrec : ∀ l ∈ rest, map_record fmt l = .ok (g l)) :
    (parser_map fmt file).result
      = .ok ((split tab header).length - fmt.meta_columns, rest.length) ∧
    (parser_map fmt file).indfile = (split tab header).drop fmt.meta_columns ∧
    (parser_map fmt file).map = map_header :: rest.map g := by
  have hskip := skip_header_found fmt.head before header rest hbefore hheader
  cases fmt with
  | vcf =>
    have hl := map_lines_ok vcf_map_record g rest hrec [map_header] 0
    simp only [Format.head] at hskip
    simp only [Format.meta_columns] at hcols
    simp only [parser_map, vcf_parser_map, hfile, hskip, hl, Format.meta_columns]
    rw [if_neg (by omega)]
    simp
  | hapmap =>
    have hl := map_lines_ok hapmap_map_record g rest hrec [map_header] 0
    simp only [Format.head] at hskip
    simp only [Format.meta_columns] at hcols
    simp only [parser_map, hapmap_parser_map, hapmap_map_files, hfile, hskip, hl,
      Format.meta_columns]
    rw [if_neg (by omega)]
    simp

theorem map_record_eq_spec (fmt : Format) (line : List Char)
    (h : LeadingFieldsFit fmt.map_fields line) :
    map_record fmt line = .ok (spec_map_record fmt line) := by
  obtain ⟨hk, hspan⟩ := h
  cases fmt with
  | vcf =>
    simp only [Format.map_fields] at hk hspan
    match hs : split tab line, hk with
    | f0 :: f1 :: f2 :: r, _ =>
      rw [hs] at hspan
      obtain ⟨rest', hr⟩ := split_take tab [f0, f1, f2] line MAP_INFO_N r (by simp)
        (by rw [hs]; rfl) hspan
      simp only [map_record, vcf_map_record, hr, spec_map_record, hs]
      rfl
    | [], h => simp at h
    | [_], h => simp at h
    | [_, _], h => simp at h
  | hapmap =>
    simp only [Format.map_fields] at hk hspan
    match hs : split tab line, hk with
    | f0 :: f1 :: f2 :: f3 :: r, _ =>
      rw [hs] at hspan
      obtain ⟨rest', hr⟩ := split_take tab [f0, f1, f2, f3] line MAP_INFO_N r (by simp)
        (by rw [hs]; rfl) hspan
      simp only [map_record, hapmap_map_record, hr, spec_map_record, hs]
      rfl
    | [], h => simp at h
    | [_], h => simp at h
    | [_, _], h => simp at h
    | [_, _, _], h => simp at h

/-- C10: the marker records of a map pass. On a text whose header line has at least 9
(11) fields and whose data lines each have at least 3 (4) fields within their first 50
characters, the map output of `vcf_parser_map` (`hapmap_parser_map`) is the line
`SNP<tab>CHROM<tab>POS` followed by one record per data line in file order; for every
data line whose first three (four) tab-separated fields lie within its first 50
characters the record is the one of the specification: for VCF id, chrom, pos (fields 2,
0, 1) joined by tabs, for HapMap fields 0, 2, 3, the id being replaced by chrom, `-`,
pos when it is `"."`. -/
theorem map_pass_records (fmt : Format) (file : List Char) (before : List (List Char))
    (header : List Char) (rest : List (List Char))
    (hfile : getlines file = before ++ header :: rest)
    (hbefore : ∀ l ∈ before, ¬ fmt.head <+: l) (hheader : fmt.head <+: header)
    (hcols : fmt.meta_columns ≤ (split tab header).length)
    (hrest : ∀ l ∈ rest, fmt.map_fields ≤ (split tab (l.take MAP_INFO_N)).length) :
    ∃ recs, (parser_map fmt file).map = map_header :: recs ∧ recs.length = rest.length ∧
      ∀ (i : Nat) (l : List Char), rest[i]? = some l → LeadingFieldsFit fmt.map_fields l →
        recs[i]? = some (spec_map_record fmt l) := by
  have hrun := (parser_map_run fmt file before header rest (written_record fmt) hfile hbefore
    hheader hcols (by
      intro l hl
      obtain ⟨r, hr⟩ := map_record_ok_of_fields fmt l (hrest l hl)
      simp only [written_record, hr])).2.2
  refine ⟨rest.map (written_record fmt), hrun, List.length_map _ _, ?_⟩
  intro i l hi hfit
  rw [List.getElem?_map, hi]
  simp only [Option.map_some', written_record, map_record_eq_spec fmt l hfit]

/-- C10, at the sample HapMap text. -/
theorem map_pass_records_witness :
    ∃ recs, (parser_map .hapmap hapmap_sample).map = map_header :: recs ∧
      recs.length = [hapmap_sample_row].length ∧
      ∀ (i : Nat) (l : List Char), [hapmap_sample_row][i]? = some l →
        LeadingFieldsFit Format.hapmap.map_fields l →
        recs[i]? = some (spec_map_record .hapmap l) :=
  map_pass_records .hapmap hapmap_sample [] hapmap_sample_header [hapmap_sample_row]
    (by decide) (by decide) (by decide) (by decide) (by decide)

/-- The map pass on the sample VCF text: two individuals, one marker, and the record
of the data line with its id built from chromosome and position. -/
theorem vcf_parser_map_sample : (parser_map .vcf vcf_sample).result = .ok (2, 1) ∧
    (parser_map .vcf vcf_sample).map = [map_header, "1-100\t1\t100".toList] ∧
    (parser_map .vcf vcf_sample).indfile = ["S1".toList, "S2".toList] ∧
    (parser_map .hapmap hapmap_sample).map = [map_header, "rs1\t1\t100".toList] ∧
    LeadingFieldsFit Format.hapmap.map_fields hapmap_sample_row := by
  refine ⟨rfl, by decide, by decide, by decide, by decide⟩

/-! ## Which failures a call can raise -/

theorem forLoop_error {σ : Type} (cond : Nat → Bool) (body : Nat → σ → Except Failure σ)
    (P : Failure → Prop) (h : ∀ x s e, body x s = .error e → P e) :
    ∀ (fuel x : Nat) (s : σ) (e : Failure), forLoop cond body fuel x s = .error e → P e := by
  intro fuel
  induction fuel with
  | zero => intro x s e he; simp [forLoop] at he
  | succ k ih =>
    intro x s e he
    unfold forLoop at he
    by_cases hc : cond x = true
    · rw [if_pos hc] at he
      cases hb : body x s with
      | error e' =>
        rw [hb] at he
        simp only [Except.error.injEq] at he
        subst he
        exact h x s e' hb
      | ok s' =>
        rw [hb] at he
        exact ih (x + 1) s' e he
    · rw [if_neg hc] at he
      simp at he

theorem set?_error (M : BigMatrix) (c r : Nat) (v : Val) (e : Failure)
    (h : M.set? c r v = .error e) : e = .undefined := by
  unfold BigMatrix.set? at h
  split at h
  · simp at h
  · simp only [Except.error.injEq] at h
    exact h.symm

theorem get?_error (M : BigMatrix) (c r : Nat) (e : Failure)
    (h : M.get? c r = .error e) : e = .undefined := by
  unfold BigMatrix.get? at h
  split at h
  · simp at h
  · simp only [Except.error.injEq] at h
    exact h.symm

theorem read_bfile_decode_error (w : Width) (bed : List Nat) (pMat : BigMatrix)
    (maxLine : Int) (e : Failure) (h : read_bfile_decode w bed pMat maxLine = .error e) :
    e = .undefined := by
  have hx : ∀ p c r x s e, read_bfile_x p c r x s = .error e → e = .undefined := by
    intro p c r x s e he
    unfold read_bfile_x at he
    split at he
    · rename_i e' hs
      simp only [Except.error.injEq] at he
      subst he
      exact set?_error _ _ _ _ _ hs
    · simp at he
  have hj : ∀ n ncol bs i j s e, read_bfile_j n ncol bs i j s = .error e → e = .undefined := by
    intro n ncol bs i j s e he
    unfold read_bfile_j at he
    split at he
    · simp only [Except.error.injEq] at he
      exact he.symm
    · split at he
      · simp only [Except.error.injEq] at he
        exact he.symm
      · exact forLoop_error _ _ _ (fun x s e => hx _ _ _ x s e) _ _ _ _ he
  have hi : ∀ n ncol bs L i s e, read_bfile_i n ncol bs L i s = .error e → e = .undefined := by
    intro n ncol bs L i s e he
    unfold read_bfile_i at he
    exact forLoop_error _ _ _ (fun j s e => hj _ _ _ _ j s e) _ _ _ _ he
  unfold read_bfile_decode at h
  simp only at h
  by_cases h3 : bed.length < 3
  · rw [if_pos h3] at h
    generalize (if maxLine > 0 then maxLine * (bytes_per_row pMat.ncol : Int)
      else (bed.length : Int) - 3) = bs at h
    by_cases hb : bs = 0
    · rw [if_pos hb] at h
      simp only [Except.error.injEq] at h
      exact h.symm
    · rw [if_neg hb] at h
      by_cases hnb : Int.tdiv ((bed.length : Int) - 3) bs
          + (if Int.tmod ((bed.length : Int) - 3) bs ≠ 0 then 1 else 0) ≤ 0
      · rw [if_pos hnb] at h
        simp at h
      · rw [if_neg hnb] at h
        simp only [Except.error.injEq] at h
        exact h.symm
  · rw [if_neg h3] at h
    generalize (if maxLine > 0 then maxLine.toNat * bytes_per_row pMat.ncol
      else bed.length - 3) = bs at h
    by_cases hb : bs = 0
    · rw [if_pos hb] at h
      simp only [Except.error.injEq] at h
      exact h.symm
    · rw [if_neg hb] at h
      generalize (if (bed.length - 3) % bs ≠ 0 then (bed.length - 3) / bs + 1
        else (bed.length - 3) / bs) = nb at h
      cases hs : forLoop (fun i => decide (i < nb))
          (read_bfile_i (bytes_per_row pMat.ncol) pMat.ncol bs (bed.length - 3)) nb 0
          { fin := bed.drop 3, buffer := bed.take 3, code := read_bfile_code w,
            mat := pMat } with
      | error e' =>
        rw [hs] at h
        simp only [Except.error.injEq] at h
        subst h
        exact forLoop_error _ _ _ (fun i s e => hi _ _ _ _ i s e) _ _ _ _ hs
      | ok s' =>
        rw [hs] at h
        simp at h

theorem write_bfile_bytes_error (w : Width) (pMat : BigMatrix) (e : Failure)
    (h : write_bfile_bytes w pMat = .error e) : e = .undefined := by
  have hx : ∀ i j x s e, write_bfile_x w pMat i j x s = .error e → e = .undefined := by
    intro i j x s e he
    unfold write_bfile_x at he
    split at he
    · rename_i e' hs
      simp only [Except.error.injEq] at he
      subst he
      exact get?_error _ _ _ _ hs
    · split at he <;> simp at he
  have hj : ∀ i j s e, write_bfile_j w pMat i j s = .error e → e = .undefined := by
    intro i j s e he
    unfold write_bfile_j at he
    split at he
    · rename_i e' hs
      simp only [Except.error.injEq] at he
      subst he
      exact forLoop_error _ _ _ (fun x s e => hx _ _ x s e) _ _ _ _ hs
    · simp at he
  have hi : ∀ n i s e, write_bfile_i w pMat n i s = .error e → e = .undefined := by
    intro n i s e he
    unfold write_bfile_i at he
    split at he
    · rename_i e' hs
      simp only [Except.error.injEq] at he
      subst he
      exact forLoop_error _ _ _ (fun j s e => hj _ j s e) _ _ _ _ hs
    · simp at he
  unfold write_bfile_bytes at h
  simp only at h
  split at h
  · rename_i e' hs
    simp only [Except.error.injEq] at h
    subst h
    exact forLoop_error _ _ _ (fun i s e => hi _ i s e) _ _ _ _ hs
  · simp at h

theorem bed_ending_error (bed_file : List Char) (e : Failure)
    (h : bed_ending bed_file = .error e) : e = .out_of_range := by
  unfold bed_ending at h
  split at h
  · simp only [Except.error.injEq] at h
    exact h.symm
  · split at h <;> simp at h

theorem write_bfile_T_error (w : Width) (pMat : BigMatrix) (bed_file : List Char)
    (e : Failure) (h : write_bfile_T w pMat bed_file = .error e) :
    e = .out_of_range ∨ e = .undefined := by
  unfold write_bfile_T at h
  split at h
  · rename_i e' hs
    simp only [Except.error.injEq] at h
    subst h
    exact Or.inl (bed_ending_error _ _ hs)
  · split at h
    · rename_i e' hs
      simp only [Except.error.injEq] at h
      subst h
      exact Or.inr (write_bfile_bytes_error _ _ _ hs)
    · simp at h

theorem read_bfile_T_error (w : Width) (bed_file : List Char) (bed : List Nat)
    (pMat : BigMatrix) (maxLine : Int) (e : Failure)
    (h : read_bfile_T w bed_file bed pMat maxLine = .error e) :
    e = .out_of_range ∨ e = .undefined := by
  unfold read_bfile_T at h
  split at h
  · rename_i e' hs
    simp only [Except.error.injEq] at h
    subst h
    exact Or.inl (bed_ending_error _ _ hs)
  · exact Or.inr (read_bfile_decode_error _ _ _ _ _ h)

theorem transform_error {α β : Type} (f : α → Except Failure β) (P : Failure → Prop)
    (h : ∀ a e, f a = .error e → P e) :
    ∀ (l : List α) (e : Failure), transform f l = .error e → P e := by
  intro l
  induction l with
  | nil => intro e he; simp [transform] at he
  | cons a as ih =>
    intro e he
    unfold transform at he
    split at he
    · rename_i e' hs
      simp only [Except.error.injEq] at he
      subst he
      exact h a e' hs
    · split at he
      · rename_i e' hs
        simp only [Except.error.injEq] at he
        subst he
        exact ih e' hs
      · simp at he

theorem string_at_error (m : List Char) (i : Nat) (e : Failure)
    (h : string_at m i = .error e) : e = .undefined := by
  unfold string_at at h
  split at h
  · simp at h
  · split at h
    · simp at h
    · simp only [Except.error.injEq] at h
      exact h.symm

theorem vcf_marker_error (w : Width) (m : List Char) (e : Failure)
    (h : vcf_marker_parser_T w m = .error e) : e = .undefined := by
  unfold vcf_marker_parser_T at h
  split at h
  · rename_i e' hs
    simp only [Except.error.injEq] at h
    subst h
    exact string_at_error _ _ _ hs
  · split at h
    · split at h
      · rename_i e' hs
        simp only [Except.error.injEq] at h
        subst h
        exact string_at_error _ _ _ hs
      · split at h <;> simp at h
    · simp at h

theorem to_char_error (w : Width) (v : Val) (e : Failure) (h : to_char w v = .error e) :
    e = .undefined := by
  cases w <;> cases v <;> simp only [to_char] at h <;>
    first
    | (simp only [Except.error.injEq] at h; exact h.symm)
    | (split at h <;> simp at h <;> exact h.symm)
    | simp at h

theorem store_markers_error (markers : List Int) (m : Nat) (mat : BigMatrix) (e : Failure)
    (h : store_markers markers m mat = .error e) : e = .undefined := by
  unfold store_markers at h
  exact forLoop_error _ _ _ (fun i s e he => set?_error _ _ _ _ _ he) _ _ _ _ h

theorem vcf_genotype_lines_error (w : Width) :
    ∀ (lines : List (List Char)) (m : Nat) (mat : BigMatrix) (e : Failure),
      vcf_genotype_lines w lines m mat = .error e → e = .undefined := by
  intro lines
  induction lines with
  | nil => intro m mat e he; simp [vcf_genotype_lines] at he
  | cons line rest ih =>
    intro m mat e he
    unfold vcf_genotype_lines at he
    split at he
    · rename_i e' hs
      simp only [Except.error.injEq] at he
      subst he
      unfold vcf_genotype_line at hs
      split at hs
      · simp only [Except.error.injEq] at hs
        exact hs.symm
      · split at hs
        · rename_i e'' ht
          simp only [Except.error.injEq] at hs
          subst hs
          refine transform_error _ (fun e => e = .undefined) ?_ _ _ ht
          intro tok e hf
          split at hf
          · rename_i e3 hv
            simp only [Except.error.injEq] at hf
            subst hf
            exact vcf_marker_error _ _ _ hv
          · exact to_char_error _ _ _ hf
        · exact store_markers_error _ _ _ _ hs
    · exact ih _ _ _ he

theorem hapmap_genotype_lines_error (w : Width) :
    ∀ (lines : List (List Char)) (m : Nat) (mat : BigMatrix) (e : Failure),
      hapmap_genotype_lines w lines m mat = .error e → e = .undefined := by
  intro lines
  induction lines with
  | nil => intro m mat e he; simp [hapmap_genotype_lines] at he
  | cons line rest ih =>
    intro m mat e he
    unfold hapmap_genotype_lines at he
    split at he
    · rename_i e' hs
      simp only [Except.error.injEq] at he
      subst he
      unfold hapmap_genotype_line at hs
      split at hs
      · simp only [Except.error.injEq] at hs
        exact hs.symm
      · split at hs
        · rename_i e'' ht
          simp only [Except.error.injEq] at hs
          subst hs
          exact string_at_error _ _ _ ht
        · split at hs
          · simp only [Except.error.injEq] at hs
            exact hs.symm
          · split at hs
            · rename_i e'' ht
              simp only [Except.error.injEq] at hs
              subst hs
              exact transform_error _ (fun e => e = .undefined)
                (fun tok e hf => to_char_error _ _ _ hf) _ _ ht
            · exact store_markers_error _ _ _ _ hs
    · exact ih _ _ _ he

/-! ## Claims on failures: missing header, dispatch -/

theorem skip_header_none_iff (pre : List Char) (lines : List (List Char)) :
    skip_header pre lines = none ↔ ∀ l ∈ lines, ¬ pre <+: l := by
  induction lines with
  | nil => simp [skip_header]
  | cons l ls ih =>
    unfold skip_header
    by_cases hp : pre.isPrefixOf l = true
    · rw [if_pos hp]
      simp only [reduceCtorEq, List.mem_cons, forall_eq_or_imp, false_iff, not_and]
      intro h
      exact absurd (List.isPrefixOf_iff_prefix.mp hp) h
    · rw [if_neg hp, ih]
      have hn : ¬ pre <+: l := fun h => hp (List.isPrefixOf_iff_prefix.mpr h)
      simp only [List.mem_cons, forall_eq_or_imp, hn, not_false_eq_true, true_and]

theorem map_record_error (fmt : Format) (line : List Char) (e : Failure)
    (h : map_record fmt line = .error e) : e = .undefined := by
  cases fmt with
  | vcf =>
    simp only [map_record, vcf_map_record] at h
    split at h
    · simp at h
    · simp only [Except.error.injEq] at h
      exact h.symm
  | hapmap =>
    simp only [map_record, hapmap_map_record] at h
    split at h
    · simp at h
    · simp only [Except.error.injEq] at h
      exact h.symm

theorem map_lines_error (record : List Char → Except Failure (List Char))
    (hrec : ∀ l e, record l = .error e → e = .undefined) :
    ∀ (rest map : List (List Char)) (m : Nat) (e : Failure),
      (map_lines record rest map m).2 = .error e → e = .undefined := by
  intro rest
  induction rest with
  | nil => intro map m e he; simp [map_lines] at he
  | cons l ls ih =>
    intro map m e he
    unfold map_lines at he
    split at he
    · rename_i e' hs
      simp only [Except.error.injEq] at he
      subst he
      exact hrec l e' hs
    · exact ih _ _ _ he

theorem parser_map_no_header (fmt : Format) (file : List Char)
    (h : skip_header fmt.head (getlines file) = none) :
    (parser_map fmt file).result = .error .no_header ∧ (parser_map fmt file).map = [] ∧
      (parser_map fmt file).indfile = [] := by
  cases fmt with
  | vcf =>
    simp only [Format.head] at h
    simp only [parser_map, vcf_parser_map, h, and_self]
  | hapmap =>
    simp only [Format.head] at h
    simp only [parser_map, hapmap_parser_map, hapmap_map_files, h, and_self]

theorem parser_map_with_header (fmt : Format) (file : List Char) (line : List Char)
    (rest : List (List Char)) (h : skip_header fmt.head (getlines file) = some (line, rest)) :
    (parser_map fmt file).result ≠ .error .no_header := by
  cases fmt with
  | vcf =>
    simp only [Format.head] at h
    have hl := map_lines_error vcf_map_record (map_record_error .vcf) rest [map_header] 0
    simp only [parser_map, vcf_parser_map, h]
    split
    · simp
    · simp only
      cases hm : (map_lines vcf_map_record rest [map_header] 0).2 with
      | error e => rw [hl e hm]; simp
      | ok m => simp
  | hapmap =>
    simp only [Format.head] at h
    have hl := map_lines_error hapmap_map_record (map_record_error .hapmap) rest [map_header] 0
    simp only [parser_map, hapmap_parser_map, hapmap_map_files, h]
    split
    · simp
    · cases hm : (map_lines hapmap_map_record rest [map_header] 0).2 with
      | error e => rw [hl e hm]; simp
      | ok m => simp [hapmap_map_files]

theorem parser_genotype_no_header_iff (fmt : Format) (w : Width) (file : List Char)
    (pMat : BigMatrix) :
    parser_genotype_T fmt w file pMat = .error .no_header ↔
      skip_header fmt.head (getlines file) = none := by
  cases fmt with
  | vcf =>
    simp only [parser_genotype_T, vcf_parser_genotype_T, Format.head]
    cases hs : skip_header vcf_head (getlines file) with
    | none => simp
    | some p =>
      simp only [reduceCtorEq, iff_false]
      intro h
      have := vcf_genotype_lines_error w _ _ _ _ h
      simp at this
  | hapmap =>
    simp only [parser_genotype_T, hapmap_parser_genotype_T, Format.head]
    cases hs : skip_header hapmap_head (getlines file) with
    | none => simp
    | some p =>
      simp only [reduceCtorEq, iff_false]
      intro h
      have := hapmap_genotype_lines_error w _ _ _ _ h
      simp at this

/-- C11: a missing header is fatal and leaves no partial output. For both formats, the
map pass (`vcf_parser_map`, `hapmap_parser_map` on one file) fails with the no-header
error if and only if no line of the text begins with `#CHROM` (`rs#`); when it fails so,
no line has been written to the map output or to the individual list; the genotype
loaders (`vcf_parser_genotype<T>`, `hapmap_parser_genotype<T>`) fail with the no-header
error under the same condition, for every width and store. -/
theorem missing_header_fatal (fmt : Format) (file : List Char) :
    ((parser_map fmt file).result = .error .no_header ↔
      ∀ l ∈ getlines file, ¬ fmt.head <+: l) ∧
    ((parser_map fmt file).result = .error .no_header →
      (parser_map fmt file).map = [] ∧ (parser_map fmt file).indfile = []) ∧
    (∀ (w : Width) (pMat : BigMatrix),
      parser_genotype_T fmt w file pMat = .error .no_header ↔
        ∀ l ∈ getlines file, ¬ fmt.head <+: l) := by
  have hiff : (parser_map fmt file).result = .error .no_header ↔
      skip_header fmt.head (getlines file) = none := by
    cases hs : skip_header fmt.head (getlines file) with
    | none => simp [(parser_map_no_header fmt file hs).1]
    | some p =>
      obtain ⟨line, rest⟩ := p
      simp [parser_map_with_header fmt file line rest hs]
  refine ⟨hiff.trans (skip_header_none_iff _ _), ?_, ?_⟩
  · intro h
    exact (parser_map_no_header fmt file (hiff.mp h)).2
  · intro w pMat
    exact (parser_genotype_no_header_iff fmt w file pMat).trans (skip_header_none_iff _ _)

/-- The map pass and the loader on a VCF text without a header line, and on the sample
text with one. -/
theorem missing_header_samples :
    (parser_map .vcf "1\t100\trs1\n".toList).result = .error .no_header ∧
    (parser_map .vcf "1\t100\trs1\n".toList).map = [] ∧
    (parser_map .vcf vcf_sample).result = .ok (2, 1) ∧
    (parser_map .hapmap "1\t100\trs1\n".toList).result = .error .no_header := by
  refine ⟨rfl, rfl, rfl, rfl⟩

theorem width_of_tag_none_iff (t : Nat) :
    width_of_tag t = none ↔ (t ≠ 1 ∧ t ≠ 2 ∧ t ≠ 4 ∧ t ≠ 8) := by
  unfold width_of_tag
  split <;> simp_all

/-- C12: type-width dispatch. Each of the four exported functions runs, for a store
whose type tag is 1, 2, 4 or 8, the template instance of `char`, `short`, `int` or
`double` (whose sentinel is `NA_CHAR`, `NA_SHORT`, `NA_INTEGER`, `NA_REAL`), and for any
other tag raises the unknown-type error at once, producing no file and no store; the
unknown-type error is raised for no tag among 1, 2, 4, 8. -/
theorem type_width_dispatch (pBigMat : BigMatrix) (text : List Char) (bed_file : List Char)
    (bed : List Nat) (maxLine : Int) :
    (match width_of_tag pBigMat.matrix_type with
      | some w =>
        vcf_parser_genotype text pBigMat = vcf_parser_genotype_T w text pBigMat ∧
        hapmap_parser_genotype text pBigMat = hapmap_parser_genotype_T w text pBigMat ∧
        write_bfile pBigMat bed_file = write_bfile_T w pBigMat bed_file ∧
        read_bfile bed_file bed pBigMat maxLine = read_bfile_T w bed_file bed pBigMat maxLine
      | none =>
        vcf_parser_genotype text pBigMat = .error .unknown_type ∧
        hapmap_parser_genotype text pBigMat = .error .unknown_type ∧
        write_bfile pBigMat bed_file = .error .unknown_type ∧
        read_bfile bed_file bed pBigMat maxLine = .error .unknown_type) ∧
    (vcf_parser_genotype text pBigMat = .error .unknown_type ↔
      (pBigMat.matrix_type ≠ 1 ∧ pBigMat.matrix_type ≠ 2 ∧ pBigMat.matrix_type ≠ 4 ∧
        pBigMat.matrix_type ≠ 8)) ∧
    (hapmap_parser_genotype text pBigMat = .error .unknown_type ↔
      (pBigMat.matrix_type ≠ 1 ∧ pBigMat.matrix_type ≠ 2 ∧ pBigMat.matrix_type ≠ 4 ∧
        pBigMat.matrix_type ≠ 8)) ∧
    (write_bfile pBigMat bed_file = .error .unknown_type ↔
      (pBigMat.matrix_type ≠ 1 ∧ pBigMat.matrix_type ≠ 2 ∧ pBigMat.matrix_type ≠ 4 ∧
        pBigMat.matrix_type ≠ 8)) ∧
    (read_bfile bed_file bed pBigMat maxLine = .error .unknown_type ↔
      (pBigMat.matrix_type ≠ 1 ∧ pBigMat.matrix_type ≠ 2 ∧ pBigMat.matrix_type ≠ 4 ∧
        pBigMat.matrix_type ≠ 8)) ∧
    (NA .char = .num (-128) ∧ NA .short = .num (-32768) ∧ NA .int = .num (-2147483648) ∧
      NA .double = .nan) := by
  have hv : ∀ w, vcf_parser_genotype_T w text pBigMat ≠ .error .unknown_type := by
    intro w h
    unfold vcf_parser_genotype_T at h
    split at h
    · simp at h
    · have := vcf_genotype_lines_error w _ _ _ _ h
      simp at this
  have hh : ∀ w, hapmap_parser_genotype_T w text pBigMat ≠ .error .unknown_type := by
    intro w h
    unfold hapmap_parser_genotype_T at h
    split at h
    · simp at h
    · have := hapmap_genotype_lines_error w _ _ _ _ h
      simp at this
  have hw : ∀ w, write_bfile_T w pBigMat bed_file ≠ .error .unknown_type := by
    intro w h
    rcases write_bfile_T_error w _ _ _ h with h' | h' <;> simp at h'
  have hr : ∀ w, read_bfile_T w bed_file bed pBigMat maxLine ≠ .error .unknown_type := by
    intro w h
    rcases read_bfile_T_error w _ _ _ _ _ h with h' | h' <;> simp at h'
  by_cases h1 : pBigMat.matrix_type = 1
  · simp [width_of_tag, vcf_parser_genotype, hapmap_parser_genotype, write_bfile,
      read_bfile, h1, hv, hh, hw, hr, NA]
  · by_cases h2 : pBigMat.matrix_type = 2
    · simp [width_of_tag, vcf_parser_genotype, hapmap_parser_genotype, write_bfile,
        read_bfile, h2, hv, hh, hw, hr, NA]
    · by_cases h4 : pBigMat.matrix_type = 4
      · simp [width_of_tag, vcf_parser_genotype, hapmap_parser_genotype, write_bfile,
          read_bfile, h4, hv, hh, hw, hr, NA]
      · by_cases h8 : pBigMat.matrix_type = 8
        · simp [width_of_tag, vcf_parser_genotype, hapmap_parser_genotype, write_bfile,
            read_bfile, h8, hv, hh, hw, hr, NA]
        · have hn : width_of_tag pBigMat.matrix_type = none :=
            (width_of_tag_none_iff _).mpr ⟨h1, h2, h4, h8⟩
          have e1 : vcf_parser_genotype text pBigMat = .error .unknown_type := by
            unfold vcf_parser_genotype; split <;> simp_all
          have e2 : hapmap_parser_genotype text pBigMat = .error .unknown_type := by
            unfold hapmap_parser_genotype; split <;> simp_all
          have e3 : write_bfile pBigMat bed_file = .error .unknown_type := by
            unfold write_bfile; split <;> simp_all
          have e4 : read_bfile bed_file bed pBigMat maxLine = .error .unknown_type := by
            unfold read_bfile; split <;> simp_all
          rw [hn]
          simp [e1, e2, e3, e4, h1, h2, h4, h8, NA]

/-! ## Claims on the counts of the map pass -/

theorem map_record_err_of_fields (fmt : Format) (line : List Char)
    (h : (split tab (line.take MAP_INFO_N)).length < fmt.map_fields) :
    map_record fmt line = .error .undefined := by
  cases fmt with
  | vcf =>
    simp only [map_record, vcf_map_record]
    match hs : split tab (line.take MAP_INFO_N), h with
    | _ :: _ :: _ :: _, h =>
      exfalso
      simp only [Format.map_fields, List.length_cons] at h
      omega
    | [], _ => rfl
    | [_], _ => rfl
    | [_, _], _ => rfl
  | hapmap =>
    simp only [map_record, hapmap_map_record]
    match hs : split tab (line.take MAP_INFO_N), h with
    | _ :: _ :: _ :: _ :: _, h =>
      exfalso
      simp only [Format.map_fields, List.length_cons] at h
      omega
    | [], _ => rfl
    | [_], _ => rfl
    | [_, _], _ => rfl
    | [_, _, _], _ => rfl

/-- The loop of a map pass stops with the failure at the first line that gives no
record: a line without a record anywhere after the header makes the count `m`
undefined. -/
theorem map_lines_err_of_mem (record : List Char → Except Failure (List Char))
    (hrec : ∀ l e, record l = .error e → e = .undefined) (l : List Char)
    (hl : record l = .error .undefined) :
    ∀ (rest : List (List Char)), l ∈ rest → ∀ (map : List (List Char)) (m : Nat),
      (map_lines record rest map m).2 = .error .undefined := by
  intro rest
  induction rest with
  | nil => intro h; simp at h
  | cons a as ih =>
    intro hmem map m
    rw [map_lines]
    cases ha : record a with
    | error e =>
      simp only
      rw [hrec a e ha]
    | ok r =>
      simp only
      have hin : l ∈ as := by
        rcases List.mem_cons.mp hmem with h | h
        · subst h
          rw [hl] at ha
          simp at ha
        · exact h
      exact ih hin _ _

/-- A map pass on a text with a header line of too few columns, or with a line after
the header that has fewer than 3 (4) fields within its first 50 characters, has no
defined result. -/
theorem parser_map_run_err (fmt : Format) (file : List Char) (before : List (List Char))
    (header : List Char) (rest : List (List Char))
    (hfile : getlines file = before ++ header :: rest)
    (hbefore : ∀ l ∈ before, ¬ fmt.head <+: l) (hheader : fmt.head <+: header)
    (h : ¬ (fmt.meta_columns ≤ (split tab header).length ∧
      ∀ l ∈ rest, fmt.map_fields ≤ (split tab (l.take MAP_INFO_N)).length)) :
    (parser_map fmt file).result = .error .undefined := by
  have hskip := skip_header_found fmt.head before header rest hbefore hheader
  by_cases hcols : fmt.meta_columns ≤ (split tab header).length
  · have hex : ∃ l ∈ rest, (split tab (l.take MAP_INFO_N)).length < fmt.map_fields := by
      by_contra hcon
      push_neg at hcon
      exact h ⟨hcols, hcon⟩
    obtain ⟨l, hlm, hlt⟩ := hex
    have herr := map_lines_err_of_mem (map_record fmt) (map_record_error fmt) l
      (map_record_err_of_fields fmt l hlt) rest hlm [map_header] 0
    cases fmt with
    | vcf =>
      simp only [Format.head] at hskip
      simp only [Format.meta_columns] at hcols
      simp only [map_record] at herr
      simp only [parser_map, vcf_parser_map, hfile, hskip]
      rw [if_neg (by omega)]
      simp only [herr]
    | hapmap =>
      simp only [Format.head] at hskip
      simp only [Format.meta_columns] at hcols
      simp only [map_record] at herr
      simp only [parser_map, hapmap_parser_map, hapmap_map_files, hfile, hskip]
      rw [if_neg (by omega)]
      simp only [herr]
  · cases fmt with
    | vcf =>
      simp only [Format.head] at hskip
      simp only [Format.meta_columns] at hcols
      simp only [parser_map, vcf_parser_map, hfile, hskip]
      rw [if_pos (by omega)]
    | hapmap =>
      simp only [Format.head] at hskip
      simp only [Format.meta_columns] at hcols
      simp only [parser_map, hapmap_parser_map, hapmap_map_files, hfile, hskip]
      rw [if_pos (by omega)]

/-- C9 as stated fails: the map pass does not skip an empty line. On the sample VCF
text followed by one empty line the header line is found, the header has 2 fields after
the first 9 and one line after the header is not empty, so that the claim gives `n = 2`
and `m = 1`; `vcf_parser_map` reads the empty line as a data line, indexes `l[2]` of its
single field and has no defined result. The same holds for `hapmap_parser_map` and
`l[2]`, `l[3]` on the sample HapMap text followed by one empty line. -/
theorem map_pass_empty_line_not_skipped :
    getlines (vcf_sample ++ ['\n'])
      = ["##fileformat=VCFv4.2".toList, vcf_sample_header, vcf_sample_row, []] ∧
    skip_header vcf_head (getlines (vcf_sample ++ ['\n']))
      = some (vcf_sample_header, [vcf_sample_row, []]) ∧
    (split tab vcf_sample_header).length - 9 = 2 ∧
    ([vcf_sample_row, []].filter (fun l => decide (l ≠ []))).length = 1 ∧
    split tab (([] : List Char).take MAP_INFO_N) = [[]] ∧
    (parser_map .vcf (vcf_sample ++ ['\n'])).result = .error .undefined ∧
    (parser_map .vcf (vcf_sample ++ ['\n'])).result ≠ .ok (2, 1) ∧
    skip_header hapmap_head (getlines (hapmap_sample ++ ['\n']))
      = some (hapmap_sample_header, [hapmap_sample_row, []]) ∧
    (parser_map .hapmap (hapmap_sample ++ ['\n'])).result = .error .undefined := by
  have h : (parser_map .vcf (vcf_sample ++ ['\n'])).result = .error .undefined := rfl
  refine ⟨by decide, by decide, by decide, by decide, rfl, h, ?_, by decide, rfl⟩
  rw [h]
  simp

/-- C9, amended: the counts of a map pass. On a text whose first line beginning with
`#CHROM` (VCF) or `rs#` (HapMap) is `header` and whose lines after it are `rest`: when
the header has at least 9 (11) tab-separated fields and every line after it has at
least 3 (4) fields within its first 50 characters, `vcf_parser_map`
(`hapmap_parser_map`) returns `n` = the number of fields of the header line minus 9 (11)
and `m` = the number of lines after the header line, every line counted, and the
individual list holds the header fields after the first 9 (11), in order; on every
other text with a header line the call has no defined result, in particular when a
line after the header is empty. -/
theorem map_pass_counts_all_lines (fmt : Format) (file : List Char)
    (before : List (List Char)) (header : List Char) (rest : List (List Char))
    (hfile : getlines file = before ++ header :: rest)
    (hbefore : ∀ l ∈ before, ¬ fmt.head <+: l) (hheader : fmt.head <+: header) :
    ((fmt.meta_columns ≤ (split tab header).length ∧
        ∀ l ∈ rest, fmt.map_fields ≤ (split tab (l.take MAP_INFO_N)).length) →
      (parser_map fmt file).result
        = .ok ((split tab header).length - fmt.meta_columns, rest.length) ∧
      (parser_map fmt file).indfile = (split tab header).drop fmt.meta_columns) ∧
    (¬ (fmt.meta_columns ≤ (split tab header).length ∧
        ∀ l ∈ rest, fmt.map_fields ≤ (split tab (l.take MAP_INFO_N)).length) →
      (parser_map fmt file).result = .error .undefined) ∧
    ([] ∈ rest → (parser_map fmt file).result = .error .undefined) := by
  refine ⟨?_, parser_map_run_err fmt file before header rest hfile hbefore hheader, ?_⟩
  · intro ⟨hcols, hrest⟩
    obtain ⟨h1, h2, _⟩ := parser_map_run fmt file before header rest
      (fun l => match map_record fmt l with
        | .ok r => r
        | .error _ => [])
      hfile hbefore hheader hcols
      (by
        intro l hl
        obtain ⟨r, hr⟩ := map_record_ok_of_fields fmt l (hrest l hl)
        simp only [hr])
    exact ⟨h1, h2⟩
  · intro hmem
    apply parser_map_run_err fmt file before header rest hfile hbefore hheader
    intro ⟨_, hrest⟩
    have h := hrest [] hmem
    have hs : split tab (List.take MAP_INFO_N ([] : List Char)) = [[]] := rfl
    rw [hs] at h
    cases fmt <;> simp [Format.map_fields] at h

/-- C9 amended, at the sample VCF text (two individuals, one data line) and at the same
text followed by one empty line. -/
theorem map_pass_counts_all_lines_witness :
    ((parser_map .vcf vcf_sample).result
        = .ok ((split tab vcf_sample_header).length - Format.vcf.meta_columns,
            [vcf_sample_row].length) ∧
      (parser_map .vcf vcf_sample).indfile
        = (split tab vcf_sample_header).drop Format.vcf.meta_columns) ∧
    (parser_map .vcf (vcf_sample ++ ['\n'])).result = .error .undefined :=
  ⟨(map_pass_counts_all_lines .vcf vcf_sample ["##fileformat=VCFv4.2".toList]
      vcf_sample_header [vcf_sample_row] (by decide) (by decide) (by decide)).1
      ⟨by decide, by decide⟩,
    (map_pass_counts_all_lines .vcf (vcf_sample ++ ['\n']) ["##fileformat=VCFv4.2".toList]
      vcf_sample_header [vcf_sample_row, []] (by decide) (by decide) (by decide)).2.2
      (by decide)⟩

/-! ## Claims on truncated bodies, file names, the scenario and the numeric scan -/

/-- C14, at the failing input: for the name `abc` (3 characters) the file-name check
throws `std::out_of_range`, so `write_bfile` and `read_bfile` fail instead of using
`abc.bed`; the same holds for the empty name. -/
theorem bed_ending_short_name :
    bed_ending ['a', 'b', 'c'] = .error .out_of_range ∧
    bed_ending [] = .error .out_of_range ∧
    write_bfile (const_store 1 1 1 (.num 0)) ['a', 'b', 'c'] = .error .out_of_range ∧
    cell_of (read_bfile ['a', 'b', 'c'] [0x6c, 0x1b, 0x01, 3] (const_store 1 1 1 (.num 9)) (-1))
      0 0 = none := by
  refine ⟨rfl, rfl, rfl, rfl⟩

/-- File-name resolution for names of at least 4 characters: the name itself when it
ends with `.bed`, the name followed by `.bed` otherwise; resolving the result again
gives the same name. -/
theorem bed_ending_resolves (p : List Char) (hlen : 4 ≤ p.length) :
    bed_ending p = .ok (if ['.', 'b', 'e', 'd'] <:+ p then p else p ++ ['.', 'b', 'e', 'd']) ∧
    bed_ending (if ['.', 'b', 'e', 'd'] <:+ p then p else p ++ ['.', 'b', 'e', 'd'])
      = .ok (if ['.', 'b', 'e', 'd'] <:+ p then p else p ++ ['.', 'b', 'e', 'd']) := by
  have hlit : ".bed".toList = ['.', 'b', 'e', 'd'] := rfl
  have key : ∀ q : List Char, 4 ≤ q.length →
      (q.drop (q.length - 4) = ['.', 'b', 'e', 'd'] ↔ ['.', 'b', 'e', 'd'] <:+ q) := by
    intro q hq
    constructor
    · intro h
      exact ⟨q.take (q.length - 4), by rw [← h, List.take_append_drop]⟩
    · rintro ⟨t, ht⟩
      have hl : t.length = q.length - 4 := by
        have := congrArg List.length ht
        simp only [List.length_append, List.length_cons, List.length_nil] at this
        omega
      rw [← hl, ← ht, List.drop_left]
  have hres : ∀ q : List Char, 4 ≤ q.length →
      bed_ending q = .ok (if ['.', 'b', 'e', 'd'] <:+ q then q else q ++ ['.', 'b', 'e', 'd']) := by
    intro q hq
    unfold bed_ending
    rw [if_neg (by omega), hlit]
    by_cases hs : ['.', 'b', 'e', 'd'] <:+ q
    · rw [if_pos ((key q hq).mpr hs), if_pos hs]
    · rw [if_neg (fun h => hs ((key q hq).mp h)), if_neg hs]
  refine ⟨hres p hlen, ?_⟩
  by_cases hs : ['.', 'b', 'e', 'd'] <:+ p
  · rw [if_pos hs, hres p hlen, if_pos hs]
  · rw [if_neg hs, hres _ (by simp), if_pos (List.suffix_append _ _)]

/-- The payload that does decode to a store of dosage 0 throughout: three bytes
`0b00001111`, both bit pairs of the two individuals being code 3. -/
theorem read_bfile_all_reference :
    cell_of (read_bfile test_bed [0x6c, 0x1b, 0x01, 0b00001111, 0b00001111, 0b00001111]
      (const_store 1 3 2 (.num 9)) (-1)) 0 0 = some (.num 0) ∧
    cell_of (read_bfile test_bed [0x6c, 0x1b, 0x01, 0b00001111, 0b00001111, 0b00001111]
      (const_store 1 3 2 (.num 9)) (-1)) 1 0 = some (.num 0) ∧
    cell_of (read_bfile test_bed [0x6c, 0x1b, 0x01, 0b00001111, 0b00001111, 0b00001111]
      (const_store 1 3 2 (.num 9)) (-1)) 1 2 = some (.num 0) := by
  refine ⟨by decide, by decide, by decide⟩

theorem count_lines_eq (rest : List (List Char)) :
    ∀ m, count_lines rest m = m + rest.length := by
  induction rest with
  | nil => intro m; rfl
  | cons l ls ih =>
    intro m
    rw [count_lines, ih, List.length_cons]
    omega

/-- C16 as stated fails: for the empty file, which has no line, `numeric_scan` returns
`n = 1` and `m = 1`. -/
theorem numeric_scan_empty_file :
    numeric_scan [] = (1, 1) ∧ (getlines []).length = 0 := by
  refine ⟨rfl, rfl⟩

/-- C16, amended: for every file content that is not empty, `numeric_scan` returns `n` =
the number of fields of the first line cut at every tab, space or comma, and `m` = the
number of lines of the file. -/
theorem numeric_scan_counts (file : List Char) (hne : file ≠ []) :
    ∃ line rest, getlines file = line :: rest ∧
      numeric_scan file = ((split ['\t', ' ', ','] line).length, (getlines file).length) := by
  have hl : getlines file ≠ [] := by
    cases file with
    | nil => exact absurd rfl hne
    | cons c cs =>
      unfold getlines
      split
      · simp
      · split <;> simp
  cases hg : getlines file with
  | nil => exact absurd hg hl
  | cons line rest =>
    refine ⟨line, rest, rfl, ?_⟩
    unfold numeric_scan
    rw [hg]
    simp only [List.headD_cons, List.tail_cons, count_lines_eq, List.length_cons, numeric_delims]
    rw [Nat.add_comm]

/-- C16 amended, at a file of two lines of three fields. -/
theorem numeric_scan_counts_witness :
    ∃ line rest, getlines "0\t1 2\n2,1,0\n".toList = line :: rest ∧
      numeric_scan "0\t1 2\n2,1,0\n".toList
        = ((split ['\t', ' ', ','] line).length, (getlines "0\t1 2\n2,1,0\n".toList).length) :=
  numeric_scan_counts "0\t1 2\n2,1,0\n".toList (by decide)

/-- The numeric scan of a file of two lines of three fields. -/
theorem numeric_scan_sample : numeric_scan "0\t1 2\n2,1,0\n".toList = (3, 2) := by
  rfl

/-! ## Claims on the blocks of the decoder -/

/-- The decoding part of `read_bfile<T>` written with `buffer_size_of` and `n_block_of`:
on a file of at least 3 bytes the loop over blocks runs for `i < n_block`, and block `i`
(see `read_bfile_i`) for `j < buffer_size` with `i * buffer_size + j < length - 3`. -/
theorem read_bfile_decode_blocks (w : Width) (bed : List Nat) (pMat : BigMatrix)
    (maxLine : Int) :
    read_bfile_decode w bed pMat maxLine =
      if bed.length < 3 then
        if (if maxLine > 0 then maxLine * (bytes_per_row pMat.ncol : Int)
            else (bed.length : Int) - 3) = 0 then .error .undefined
        else if Int.tdiv ((bed.length : Int) - 3)
            (if maxLine > 0 then maxLine * (bytes_per_row pMat.ncol : Int)
              else (bed.length : Int) - 3)
            + (if Int.tmod ((bed.length : Int) - 3)
              (if maxLine > 0 then maxLine * (bytes_per_row pMat.ncol : Int)
                else (bed.length : Int) - 3) ≠ 0 then 1 else 0) ≤ 0 then .ok pMat
        else .error .undefined
      else if buffer_size_of maxLine (bytes_per_row pMat.ncol) (bed.length - 3) = 0 then
        .error .undefined
      else
        match forLoop
            (fun i => decide (i < n_block_of (bed.length - 3)
              (buffer_size_of maxLine (bytes_per_row pMat.ncol) (bed.length - 3))))
            (read_bfile_i (bytes_per_row pMat.ncol) pMat.ncol
              (buffer_size_of maxLine (bytes_per_row pMat.ncol) (bed.length - 3))
              (bed.length - 3))
            (n_block_of (bed.length - 3)
              (buffer_size_of maxLine (bytes_per_row pMat.ncol) (bed.length - 3))) 0
            { fin := bed.drop 3, buffer := bed.take 3, code := read_bfile_code w,
              mat := pMat } with
        | .error e => .error e
        | .ok s => .ok s.mat := by
  rfl

/-- Frame rule for `forLoop`: a property of the state that every iteration keeps holds
of the state the loop returns. -/
theorem forLoop_frame {σ : Type} (cond : Nat → Bool) (body : Nat → σ → Except Failure σ)
    (R : σ → Prop) (hstep : ∀ x s s', cond x = true → R s → body x s = .ok s' → R s') :
    ∀ (fuel x : Nat) (s s' : σ), R s → forLoop cond body fuel x s = .ok s' → R s' := by
  intro fuel
  induction fuel with
  | zero =>
    intro x s s' hR h
    simp only [forLoop, Except.ok.injEq] at h
    exact h ▸ hR
  | succ k ih =>
    intro x s s' hR h
    unfold forLoop at h
    by_cases hc : cond x = true
    · rw [if_pos hc] at h
      cases hb : body x s with
      | error e => rw [hb] at h; simp at h
      | ok s1 =>
        rw [hb] at h
        exact ih (x + 1) s1 s' (hstep x s s1 hc hR hb) h
    · rw [if_neg hc] at h
      simp only [Except.ok.injEq] at h
      exact h ▸ hR

theorem mem_block_rows (n bs L i r : Nat) :
    r ∈ block_rows n bs L i ↔ ∃ j, j < bs ∧ i * bs + j < L ∧ r = (i * bs + j) / n := by
  unfold block_rows
  simp only [List.mem_map, List.mem_filter, List.mem_range, decide_eq_true_eq]
  constructor
  · rintro ⟨j, ⟨h1, h2⟩, h3⟩
    exact ⟨j, h1, h2, h3.symm⟩
  · rintro ⟨j, h1, h2, h3⟩
    exact ⟨j, ⟨h1, h2⟩, h3.symm⟩

/-- A block changes no cell of a row outside `block_rows`. -/
theorem read_bfile_i_frame (n ncol bs L i : Nat) (s s' : Decoder)
    (h : read_bfile_i n ncol bs L i s = .ok s') :
    ∀ c r, r ∉ block_rows n bs L i → s'.mat.cell c r = s.mat.cell c r := by
  intro c r hr
  unfold read_bfile_i at h
  refine forLoop_frame _ _ (fun t => t.mat.cell c r = s.mat.cell c r) ?_ _ _ _ _ rfl h
  intro j t t' hcj hR hb
  simp only [decide_eq_true_eq] at hcj
  have hrow : r ≠ (i * bs + j) / n := by
    intro heq
    exact hr ((mem_block_rows n bs L i r).mpr ⟨j, hcj.1, hcj.2, heq⟩)
  unfold read_bfile_j at hb
  split at hb
  · simp at hb
  · split at hb
    · simp at hb
    · rename_i b _
      refine forLoop_frame _ _ (fun u => u.mat.cell c r = s.mat.cell c r) ?_ _ _ _ _ hR hb
      intro x u u' _ hRu hx
      unfold read_bfile_x at hx
      split at hx
      · simp at hx
      · rename_i mat' hset
        simp only [Except.ok.injEq] at hx
        subst hx
        unfold BigMatrix.set? at hset
        split at hset
        · simp only [Except.ok.injEq] at hset
          subst hset
          simp only
          rw [if_neg (fun hh => hrow hh.2)]
          exact hRu
        · simp at hset

theorem block_rows_range (n M L i r : Nat) (hn : 0 < n)
    (h : r ∈ block_rows n (M * n) L i) : i * M ≤ r ∧ r < (i + 1) * M := by
  obtain ⟨j, hj, _, hr⟩ := (mem_block_rows _ _ _ _ _).mp h
  have e : i * (M * n) + j = n * (i * M) + j := by ring
  rw [e, Nat.mul_add_div hn] at hr
  have hjn : j / n < M := Nat.div_lt_of_lt_mul (by rw [Nat.mul_comm]; exact hj)
  have e2 : (i + 1) * M = i * M + M := by ring
  rw [hr, e2]
  exact ⟨Nat.le_add_right _ _, Nat.add_lt_add_left hjn _⟩

/-- C17: row alignment of the decode blocks. For a store with at least one column and
`maxLine > 0`, whatever the payload length `L`: the start offset `i * buffer_size` of
every block is a multiple of `ceil(ncol/4)`; the rows written by two distinct blocks are
disjoint; and a block changes no cell outside its rows, so no cell is written by two
blocks. -/
theorem block_row_alignment (ncol : Nat) (maxLine : Int) (L : Nat) (hn : 1 ≤ ncol)
    (hm : 0 < maxLine) :
    (∀ i, (i * buffer_size_of maxLine (bytes_per_row ncol) L) % bytes_per_row ncol = 0) ∧
    (∀ i1 i2 r, i1 ≠ i2 →
      r ∈ block_rows (bytes_per_row ncol) (buffer_size_of maxLine (bytes_per_row ncol) L) L i1 →
      r ∉ block_rows (bytes_per_row ncol) (buffer_size_of maxLine (bytes_per_row ncol) L) L i2) ∧
    (∀ i s s',
      read_bfile_i (bytes_per_row ncol) ncol (buffer_size_of maxLine (bytes_per_row ncol) L) L
        i s = .ok s' →
      ∀ c r,
        r ∉ block_rows (bytes_per_row ncol) (buffer_size_of maxLine (bytes_per_row ncol) L) L i →
        s'.mat.cell c r = s.mat.cell c r) := by
  have hbs : buffer_size_of maxLine (bytes_per_row ncol) L = maxLine.toNat * bytes_per_row ncol := by
    unfold buffer_size_of
    rw [if_pos hm]
  have hpos : 0 < bytes_per_row ncol := bytes_per_row_pos hn
  rw [hbs]
  refine ⟨?_, ?_, ?_⟩
  · intro i
    rw [← Nat.mul_assoc]
    exact Nat.mul_mod_left _ _
  · intro i1 i2 r hne h1 h2
    obtain ⟨a1, a2⟩ := block_rows_range _ _ _ _ _ hpos h1
    obtain ⟨b1, b2⟩ := block_rows_range _ _ _ _ _ hpos h2
    rcases Nat.lt_or_gt_of_ne hne with hlt | hgt
    · have : (i1 + 1) * maxLine.toNat ≤ i2 * maxLine.toNat := Nat.mul_le_mul_right _ hlt
      omega
    · have : (i2 + 1) * maxLine.toNat ≤ i1 * maxLine.toNat := Nat.mul_le_mul_right _ hgt
      omega
  · intro i s s' h c r hr
    exact read_bfile_i_frame _ _ _ _ _ _ _ h c r hr

/-- C17, at 5 columns (2 bytes per row), blocks of 3 rows and a payload of 14 bytes. -/
theorem block_row_alignment_witness :
    (∀ i, (i * buffer_size_of 3 (bytes_per_row 5) 14) % bytes_per_row 5 = 0) ∧
    (∀ i1 i2 r, i1 ≠ i2 →
      r ∈ block_rows (bytes_per_row 5) (buffer_size_of 3 (bytes_per_row 5) 14) 14 i1 →
      r ∉ block_rows (bytes_per_row 5) (buffer_size_of 3 (bytes_per_row 5) 14) 14 i2) ∧
    (∀ i s s',
      read_bfile_i (bytes_per_row 5) 5 (buffer_size_of 3 (bytes_per_row 5) 14) 14 i s = .ok s' →
      ∀ c r,
        r ∉ block_rows (bytes_per_row 5) (buffer_size_of 3 (bytes_per_row 5) 14) 14 i →
        s'.mat.cell c r = s.mat.cell c r) :=
  block_row_alignment 5 3 14 (by decide) (by decide)

/-- The rows of the three blocks at 5 columns, blocks of 3 rows and 14 payload bytes. -/
theorem block_rows_sample :
    buffer_size_of 3 (bytes_per_row 5) 14 = 6 ∧ n_block_of 14 6 = 3 ∧
    block_rows 2 6 14 0 = [0, 0, 1, 1, 2, 2] ∧ block_rows 2 6 14 1 = [3, 3, 4, 4, 5, 5] ∧
    block_rows 2 6 14 2 = [6, 6] := by
  refine ⟨rfl, rfl, by decide, by decide, by decide⟩

/-- C18: the blocks tile the payload. For a store with at least one column, a payload
of `L > 0` bytes and any `maxLine`: `buffer_size` is positive; `n_block` is
`ceil(L / buffer_size)`; every offset `k < L` is processed by exactly one pair (block
`i < n_block`, position `j < buffer_size`) with `i * buffer_size + j = k`; and every
processed pair has its offset below `L`. -/
theorem blocks_tile (ncol : Nat) (maxLine : Int) (L : Nat) (hn : 1 ≤ ncol) (hL : 0 < L) :
    0 < buffer_size_of maxLine (bytes_per_row ncol) L ∧
    n_block_of L (buffer_size_of maxLine (bytes_per_row ncol) L)
      = (L + buffer_size_of maxLine (bytes_per_row ncol) L - 1)
          / buffer_size_of maxLine (bytes_per_row ncol) L ∧
    (∀ k, k < L → ∃! p : Nat × Nat,
      processed L (buffer_size_of maxLine (bytes_per_row ncol) L) p.1 p.2 ∧
      p.1 * buffer_size_of maxLine (bytes_per_row ncol) L + p.2 = k) ∧
    (∀ i j, processed L (buffer_size_of maxLine (bytes_per_row ncol) L) i j →
      i * buffer_size_of maxLine (bytes_per_row ncol) L + j < L) := by
  have hpos : 0 < bytes_per_row ncol := bytes_per_row_pos hn
  have hbs : 0 < buffer_size_of maxLine (bytes_per_row ncol) L := by
    unfold buffer_size_of
    split
    · rename_i hm
      exact Nat.mul_pos (by omega) hpos
    · exact hL
  generalize buffer_size_of maxLine (bytes_per_row ncol) L = bs at hbs ⊢
  have hcov : L ≤ n_block_of L bs * bs := blocks_cover hbs
  have hnb : 0 < n_block_of L bs := by
    rcases Nat.eq_zero_or_pos (n_block_of L bs) with h | h
    · rw [h] at hcov; omega
    · exact h
  have hlast : (n_block_of L bs - 1) * bs < L :=
    block_start_lt hbs (by unfold n_block_of at hnb ⊢; omega)
  refine ⟨hbs, ?_, ?_, ?_⟩
  · symm
    obtain ⟨q, hq⟩ : ∃ q, n_block_of L bs = q + 1 := ⟨n_block_of L bs - 1, by omega⟩
    rw [hq] at hcov hlast ⊢
    have e1 : (q + 1) * bs = q * bs + bs := by ring
    have e2 : (q + 1).succ * bs = q * bs + bs + bs := by
      rw [Nat.succ_mul, e1]
    rw [Nat.add_sub_cancel] at hlast
    rw [e1] at hcov
    apply Nat.div_eq_of_lt_le
    · rw [e1]
      generalize q * bs = A at hcov hlast ⊢
      omega
    · rw [e2]
      generalize q * bs = A at hcov hlast ⊢
      omega
  · intro k hk
    have hdm := Nat.div_add_mod k bs
    have hmod := Nat.mod_lt k hbs
    have hcomm : bs * (k / bs) = k / bs * bs := Nat.mul_comm _ _
    refine ⟨(k / bs, k % bs), ⟨⟨?_, hmod, by simp only; omega⟩, by simp only; omega⟩, ?_⟩
    · by_contra hcon
      have : n_block_of L bs * bs ≤ k / bs * bs := Nat.mul_le_mul_right bs (by simpa using hcon)
      simp only at *
      omega
    · rintro ⟨i, j⟩ ⟨⟨_, hj, _⟩, heq⟩
      simp only at hj heq
      have h1 := byte_index_div (r := i) hj
      have h2 := byte_index_mod (r := i) hj
      rw [heq] at h1 h2
      rw [h1, h2]
  · intro i j h
    exact h.2.2

/-- C18, at 5 columns, blocks of 3 rows and a payload of 14 bytes. -/
theorem blocks_tile_witness :
    0 < buffer_size_of 3 (bytes_per_row 5) 14 ∧
    n_block_of 14 (buffer_size_of 3 (bytes_per_row 5) 14)
      = (14 + buffer_size_of 3 (bytes_per_row 5) 14 - 1) / buffer_size_of 3 (bytes_per_row 5) 14 ∧
    (∀ k, k < 14 → ∃! p : Nat × Nat,
      processed 14 (buffer_size_of 3 (bytes_per_row 5) 14) p.1 p.2 ∧
      p.1 * buffer_size_of 3 (bytes_per_row 5) 14 + p.2 = k) ∧
    (∀ i j, processed 14 (buffer_size_of 3 (bytes_per_row 5) 14) i j →
      i * buffer_size_of 3 (bytes_per_row 5) 14 + j < 14) :=
  blocks_tile 5 3 14 (by decide) (by decide)

/-! ## Claims on what the text scanners read -/

/-- C19: the VCF call decoder reads positions 0 and 2 only. Two tokens of at least 3
characters with the same character at position 0 and the same character at position 2
give the same result of `vcf_marker_parser<T>`. -/
theorem vcf_call_decoder_two_positions (w : Width) (m1 m2 : List Char)
    (h1 : 3 ≤ m1.length) (h2 : 3 ≤ m2.length) (h0 : m1[0]? = m2[0]?)
    (h2' : m1[2]? = m2[2]?) :
    vcf_marker_parser_T w m1 = vcf_marker_parser_T w m2 := by
  match m1, h1, m2, h2 with
  | a :: b :: c :: r1, _, a' :: b' :: c' :: r2, _ =>
    simp only [List.getElem?_cons_zero, List.getElem?_cons_succ, Option.some.injEq] at h0 h2'
    subst h0 h2'
    simp [vcf_marker_parser_T, string_at]

/-- C19, at the tokens `0/1` and `0|1:35`. -/
theorem vcf_call_decoder_two_positions_witness :
    vcf_marker_parser_T .char ['0', '/', '1']
      = vcf_marker_parser_T .char ['0', '|', '1', ':', '3', '5'] :=
  vcf_call_decoder_two_positions .char ['0', '/', '1'] ['0', '|', '1', ':', '3', '5']
    (by decide) (by decide) rfl rfl

theorem map_lines_congr (record : List Char → Except Failure (List Char)) :
    ∀ (rest1 rest2 : List (List Char)), rest1.map record = rest2.map record →
      ∀ (map : List (List Char)) (m : Nat),
        map_lines record rest1 map m = map_lines record rest2 map m := by
  intro rest1
  induction rest1 with
  | nil =>
    intro rest2 h map m
    cases rest2 with
    | nil => rfl
    | cons _ _ => simp at h
  | cons l ls ih =>
    intro rest2 h map m
    cases rest2 with
    | nil => simp at h
    | cons l' ls' =>
      simp only [List.map_cons, List.cons.injEq] at h
      unfold map_lines
      rw [h.1]
      cases record l' with
      | error e => rfl
      | ok r => exact ih ls' h.2 _ _

theorem map_record_take (fmt : Format) (l1 l2 : List Char)
    (h : l1.take MAP_INFO_N = l2.take MAP_INFO_N) : map_record fmt l1 = map_record fmt l2 := by
  cases fmt with
  | vcf => simp only [map_record, vcf_map_record, h]
  | hapmap => simp only [map_record, hapmap_map_record, h]

/-- C20: the map records depend on the first 50 characters of a line only. Two data
lines that agree on their first 50 characters get the same record from `vcf_parser_map`
(`hapmap_parser_map`); and two texts with the same header line whose data lines agree,
one by one, on their first 50 characters leave the same map output, individual list and
result. -/
theorem map_pass_first_50 (fmt : Format) (file1 file2 : List Char)
    (before1 before2 : List (List Char)) (header : List Char) (rest1 rest2 : List (List Char))
    (hfile1 : getlines file1 = before1 ++ header :: rest1)
    (hfile2 : getlines file2 = before2 ++ header :: rest2)
    (hbefore1 : ∀ l ∈ before1, ¬ fmt.head <+: l) (hbefore2 : ∀ l ∈ before2, ¬ fmt.head <+: l)
    (hheader : fmt.head <+: header)
    (hagree : rest1.map (List.take 50) = rest2.map (List.take 50)) :
    (∀ l1 l2 : List Char, l1.take 50 = l2.take 50 → map_record fmt l1 = map_record fmt l2) ∧
    (parser_map fmt file1).map = (parser_map fmt file2).map ∧
    (parser_map fmt file1).indfile = (parser_map fmt file2).indfile ∧
    (parser_map fmt file1).result = (parser_map fmt file2).result := by
  have hrec : rest1.map (map_record fmt) = rest2.map (map_record fmt) := by
    have hcomp : ∀ rest : List (List Char),
        rest.map (map_record fmt) = (rest.map (List.take 50)).map (map_record fmt) := by
      intro rest
      rw [List.map_map]
      apply List.map_congr_left
      intro l _
      exact map_record_take fmt l (l.take 50) (by simp [MAP_INFO_N])
    rw [hcomp rest1, hcomp rest2, hagree]
  have hs1 := skip_header_found fmt.head before1 header rest1 hbefore1 hheader
  have hs2 := skip_header_found fmt.head before2 header rest2 hbefore2 hheader
  refine ⟨fun l1 l2 h => map_record_take fmt l1 l2 h, ?_⟩
  cases fmt with
  | vcf =>
    simp only [Format.head] at hs1 hs2
    simp only [map_record] at hrec
    have hl := map_lines_congr vcf_map_record rest1 rest2 hrec [map_header] 0
    simp only [parser_map, vcf_parser_map, hfile1, hfile2, hs1, hs2, hl]
    exact ⟨trivial, trivial, trivial⟩
  | hapmap =>
    simp only [Format.head] at hs1 hs2
    simp only [map_record] at hrec
    have hl := map_lines_congr hapmap_map_record rest1 rest2 hrec [map_header] 0
    simp only [parser_map, hapmap_parser_map, hapmap_map_files, hfile1, hfile2, hs1, hs2, hl]
    exact ⟨trivial, trivial, trivial⟩

/-- C20, at two VCF texts whose data lines agree on their first 50 characters and differ
after them. -/
theorem map_pass_first_50_witness :
    (∀ l1 l2 : List Char, l1.take 50 = l2.take 50 →
      map_record .vcf l1 = map_record .vcf l2) ∧
    (parser_map .vcf (vcf_sample_header ++ ['\n'] ++ long_row_a)).map
      = (parser_map .vcf (vcf_sample_header ++ ['\n'] ++ long_row_b ++ ['\n'])).map ∧
    (parser_map .vcf (vcf_sample_header ++ ['\n'] ++ long_row_a)).indfile
      = (parser_map .vcf (vcf_sample_header ++ ['\n'] ++ long_row_b ++ ['\n'])).indfile ∧
    (parser_map .vcf (vcf_sample_header ++ ['\n'] ++ long_row_a)).result
      = (parser_map .vcf (vcf_sample_header ++ ['\n'] ++ long_row_b ++ ['\n'])).result :=
  map_pass_first_50 .vcf (vcf_sample_header ++ ['\n'] ++ long_row_a)
    (vcf_sample_header ++ ['\n'] ++ long_row_b ++ ['\n']) [] [] vcf_sample_header
    [long_row_a] [long_row_b] (by decide) (by decide) (by decide) (by decide) (by decide)
    (by decide)

/-- The record of a data line whose id runs beyond character 50: the id is cut there. -/
theorem map_record_long_id :
    long_row_a ≠ long_row_b ∧
    map_record .vcf long_row_a
      = .ok "rs_aaaaaaaaaaaaaaaaaaaaaaaaaaaaaaaaaaaa\tchr1\t12345".toList ∧
    map_record .vcf long_row_b
      = .ok "rs_aaaaaaaaaaaaaaaaaaaaaaaaaaaaaaaaaaaa\tchr1\t12345".toList := by
  refine ⟨by decide, rfl, rfl⟩

/-! ## Files shorter than the header -/

theorem short_file_no_block (L : Nat) (bs : Int) (hL : L < 3) (h0 : 0 < bs)
    (hle : bs ≤ 3 - (L : Int)) :
    Int.tdiv ((L : Int) - 3) bs + (if Int.tmod ((L : Int) - 3) bs ≠ 0 then 1 else 0) ≤ 0 := by
  interval_cases L <;> interval_cases bs <;> decide

theorem short_file_block (L : Nat) (bs : Int) (hL : L < 3) (hlt : 3 - (L : Int) < bs) :
    ¬ (Int.tdiv ((L : Int) - 3) bs
      + (if Int.tmod ((L : Int) - 3) bs ≠ 0 then 1 else 0) ≤ 0) := by
  have hd : (L : Int) - 3 = -((3 - L : Nat) : Int) := by omega
  have h1 : Int.tdiv ((L : Int) - 3) bs = 0 := by
    rw [hd, Int.neg_tdiv, Int.tdiv_eq_ediv (by omega) (by omega),
      Int.ediv_eq_zero_of_lt (by omega) (by omega)]
    rfl
  have h2 : Int.tmod ((L : Int) - 3) bs = (L : Int) - 3 := by
    have := Int.tmod_add_tdiv ((L : Int) - 3) bs
    rw [h1] at this
    simpa using this
  rw [h1, h2, if_pos (by omega)]
  decide

/-- The decoding part of `read_bfile<T>` on a file shorter than its 3-byte header, with
`maxLine > 0` and a store with at least one column: when a block has at most
`3 - length` bytes, `n_block <= 0`, no block is read and the store is returned as it
was; with larger blocks one block is entered and the call has no defined result. -/
theorem read_bfile_decode_short (w : Width) (bed : List Nat) (pMat : BigMatrix)
    (maxLine : Int) (h3 : bed.length < 3) (hm : 0 < maxLine) (hcol : 1 ≤ pMat.ncol) :
    read_bfile_decode w bed pMat maxLine =
      if maxLine * (bytes_per_row pMat.ncol : Int) ≤ 3 - (bed.length : Int) then .ok pMat
      else .error .undefined := by
  have hn : 0 < bytes_per_row pMat.ncol := bytes_per_row_pos hcol
  have hbs : 0 < maxLine * (bytes_per_row pMat.ncol : Int) :=
    Int.mul_pos hm (by exact_mod_cast hn)
  unfold read_bfile_decode
  simp only
  rw [if_pos h3, if_pos hm, if_neg (by omega)]
  by_cases hle : maxLine * (bytes_per_row pMat.ncol : Int) ≤ 3 - (bed.length : Int)
  · rw [if_pos (short_file_no_block bed.length _ h3 hbs hle), if_pos hle]
  · rw [if_neg (short_file_block bed.length _ h3 (by omega)), if_neg hle]

/-- Runs on files shorter than the header, into a 2 x 5 `char` store (2 bytes per row)
and a 2 x 4 store (1 byte per row): the empty file read in blocks of one row returns the
store as it was, and so does a file of one byte read in blocks of two rows of one byte;
the empty file read in blocks of two rows of 2 bytes, or with `maxLine = -1`, has no
defined result. -/
theorem read_bfile_short_file :
    cell_of (read_bfile_decode .char [] (const_store 1 2 5 (.num 9)) 1) 0 0
      = some (.num 9) ∧
    cell_of (read_bfile_decode .char [0x6c] (const_store 1 2 4 (.num 9)) 2) 0 0
      = some (.num 9) ∧
    cell_of (read_bfile_decode .char [] (const_store 1 2 5 (.num 9)) 2) 0 0 = none ∧
    cell_of (read_bfile_decode .char [] (const_store 1 2 5 (.num 9)) (-1)) 0 0 = none := by
  refine ⟨by decide, by decide, by decide, by decide⟩

/-! ## Look-ups in a sorted table -/

/-- C21, at the failing input: for the element type `double` the sentinel key `NA_REAL`
is not distinct from the keys 0, 1 and 2 under the ordering of the table (neither
`NA < 0` nor `0 < NA` holds), the assignment `code[NA] = 1` overwrites the entry of 0,
the table has three entries and looking up 0 gives 1, not 3, while looking up 1 and 2
still gives 2 and 0. For `char`, `short` and `int` the sentinel sorts before 0, the
table has four entries and looking up 0, 1 and 2 gives 3, 2 and 0. -/
theorem write_bfile_code_double_lookup :
    (StdMap.index Val.lt 0 (write_bfile_code .double) (.num 0)).1 = 1 ∧
    (StdMap.index Val.lt 0 (write_bfile_code .double) (.num 1)).1 = 2 ∧
    (StdMap.index Val.lt 0 (write_bfile_code .double) (.num 2)).1 = 0 ∧
    Val.lt (NA .double) (.num 0) = false ∧ Val.lt (.num 0) (NA .double) = false ∧
    (write_bfile_code .double).length = 3 ∧
    [Width.char, Width.short, Width.int].map (fun w =>
      ((StdMap.index Val.lt 0 (write_bfile_code w) (.num 0)).1,
        (StdMap.index Val.lt 0 (write_bfile_code w) (.num 1)).1,
        (StdMap.index Val.lt 0 (write_bfile_code w) (.num 2)).1,
        Val.lt (NA w) (.num 0), (write_bfile_code w).length))
      = [(3, 2, 0, true, 4), (3, 2, 0, true, 4), (3, 2, 0, true, 4)] := by
  refine ⟨rfl, rfl, rfl, rfl, rfl, rfl, rfl⟩

/-- A run with values outside the domain: 5, 0, -7, 1, 2 and 100 in a `char` store are
written as the bytes `0b10001100` and `0b00000000` after the magic header (fields 0, 3,
0, 2 and 0, 0), the table of the encoder having grown by the keys -7, 5 and 100 with
value 0, and are read back as 2, 0, 2, 1, 2 and 2. -/
theorem out_of_domain_sample_run :
    write_bfile_bytes .char
      (row_store 1 [.num 5, .num 0, .num (-7), .num 1, .num 2, .num 100])
      = .ok [0x6c, 0x1b, 0x01, 0b10001100, 0b00000000] ∧
    (List.range 6).map (fun c => cell_of (read_bfile_decode .char
      [0x6c, 0x1b, 0x01, 0b10001100, 0b00000000] (const_store 1 1 6 (.num 0)) 0) c 0)
      = [some (.num 2), some (.num 0), some (.num 2), some (.num 1), some (.num 2),
        some (.num 2)] := by
  refine ⟨rfl, rfl⟩

end rMVP
